import Mathlib

/-!
Verification of the asset-resolution and manifest subsystem of the
setup-mlir repository against its natural-language specification.

The TypeScript sources are modelled as pure Lean functions over `List Char`
(strings), `Except (List Char)` (thrown `Error`s carry their message), and
explicit parameters standing for the ambient state that the code reads
(`process.platform`, `process.arch`, the GitHub release list, the persisted
manifest file).  JavaScript regular expressions are modelled by executable
backtracking matchers specialised to the concrete patterns of the source,
with lazy groups trying shorter prefixes first, greedy groups trying longer
prefixes first, and unanchored patterns scanning start positions left to
right, exactly as a backtracking regex engine does.  The `i` flag is
modelled by comparing characters after ASCII lower-casing (all strings
involved are ASCII).  JavaScript `Array.prototype.sort` (stable, ES2019) is
modelled by a stable insertion sort on the same comparator.
-/

deriving instance DecidableEq for Except

namespace SetupMLIR

/-- Characters of a string literal; all modelling is done on `List Char`. -/
def str (s : String) : List Char := s.data

/-- ASCII lower-casing of one character, as `String.prototype.toLowerCase`
acts on the ASCII range (all inputs in this code base are ASCII). -/
def jsToLower (c : Char) : Char :=
  if 65 ≤ c.toNat ∧ c.toNat ≤ 90 then Char.ofNat (c.toNat + 32) else c

/-- Model of `s.toLowerCase()`. -/
def lowerStr (l : List Char) : List Char := l.map jsToLower

/-- Case-insensitive character comparison, as used by the `i` regex flag. -/
def ciEq (a b : Char) : Bool := jsToLower a == jsToLower b

/-- Test for an ASCII decimal digit, the `\d` character class. -/
def isDigitChar (c : Char) : Bool := 48 ≤ c.toNat && c.toNat ≤ 57

/-- Test for `[0-9a-f]` under the `i` flag. -/
def isHexCharCI (c : Char) : Bool :=
  isDigitChar c || (97 ≤ (jsToLower c).toNat && (jsToLower c).toNat ≤ 102)

/-- Model of the `.` regex class: any character except a line terminator. -/
def jsDot (c : Char) : Bool :=
  c.toNat ≠ 10 && c.toNat ≠ 13 && c.toNat ≠ 0x2028 && c.toNat ≠ 0x2029

/-- Consume one expected character. -/
def expectChar (c : Char) : List Char → Option (List Char)
  | [] => none
  | x :: r => if x = c then some r else none

/-- Consume a literal pattern case-insensitively, returning the rest. -/
def stripCI : List Char → List Char → Option (List Char)
  | [], l => some l
  | _ :: _, [] => none
  | p :: ps, x :: xs => if ciEq x p then stripCI ps xs else none

/-- Consume a literal pattern case-insensitively, returning both the
consumed input characters verbatim and the rest (for capture groups whose
pattern is a literal under the `i` flag). -/
def takeCI : List Char → List Char → Option (List Char × List Char)
  | [], l => some ([], l)
  | _ :: _, [] => none
  | p :: ps, x :: xs =>
      if ciEq x p then (takeCI ps xs).map (fun r => (x :: r.1, r.2)) else none

/-- Try `f start`, `f (start+1)`, ... for `fuel` steps, returning the first
`some`.  This is the backbone of lazy quantifiers (increasing lengths) and
of the left-to-right scan over match start positions. -/
def firstSome (f : Nat → Option α) : Nat → Nat → Option α
  | _, 0 => none
  | start, fuel + 1 =>
    match f start with
    | some v => some v
    | none => firstSome f (start + 1) fuel

/-- Try `f n`, `f (n-1)`, ..., `f 1`, returning the first `some`.  This is
the backbone of greedy quantifiers (decreasing lengths, never length 0). -/
def firstSomeDown (f : Nat → Option α) : Nat → Option α
  | 0 => none
  | n + 1 =>
    match f (n + 1) with
    | some v => some v
    | none => firstSomeDown f n

/-- Longest-first enumeration of nonempty-prefix splits of `l` satisfying
the character class `p`, fed to a continuation: the semantics of a greedy
`class+` group followed by the continuation. -/
def greedyPlus (p : Char → Bool) (l : List Char)
    (k : List Char → List Char → Option α) : Option α :=
  firstSomeDown (fun n => if (l.take n).all p then k (l.take n) (l.drop n) else none) l.length

/-- Shortest-first enumeration of nonempty-prefix splits of `l` satisfying
the character class `p`, fed to a continuation: the semantics of a lazy
`class+?` group followed by the continuation. -/
def lazyPlus (p : Char → Bool) (l : List Char)
    (k : List Char → List Char → Option α) : Option α :=
  firstSome (fun n => if 1 ≤ n ∧ (l.take n).all p then k (l.take n) (l.drop n) else none)
    1 l.length

/-- Scan of an unanchored pattern over all start positions, leftmost first. -/
def scanPos (l : List Char) (f : List Char → Option α) : Option α :=
  firstSome (fun i => f (l.drop i)) 0 (l.length + 1)

/-- Does the string contain (at any position) a case-insensitive occurrence
of the literal pattern `pat`? -/
def hasCiOccur (pat : List Char) : List Char → Bool
  | [] => (stripCI pat []).isSome
  | x :: xs => (stripCI pat (x :: xs)).isSome || hasCiOccur pat xs

/-- Maximal run of decimal digits, which must be nonempty: the
deterministic semantics of `\d+` followed by a non-digit literal. -/
def takeDigits (l : List Char) : Option (List Char × List Char) :=
  let d := l.takeWhile isDigitChar
  if d.isEmpty then none else some (d, l.dropWhile isDigitChar)

/-! ## Identifier Normalizer

`src/index.ts` (concatenated into `src/get-download-link.ts`, function
`run`, lines 161–176) validates the requested version with
`^\d+\.\d+\.\d+$` (version tag) and `^[0-9a-f]{7,40}$` with the `i` flag
(commit hash), after first rejecting debug requests on non-Windows
platforms.  Both checks are pure and happen before the first network call
(`getZstdLink`). -/

/-- Model of `RegExp("^\\d+\\.\\d+\\.\\d+$").test(v)`. -/
def isVersionTag (v : List Char) : Bool :=
  (do
    let (_, r1) ← takeDigits v
    let r2 ← expectChar '.' r1
    let (_, r3) ← takeDigits r2
    let r4 ← expectChar '.' r3
    let (_, r5) ← takeDigits r4
    if r5 = [] then some () else none).isSome

/-- Model of `RegExp("^[0-9a-f]{7,40}$", "i").test(v)`. -/
def isCommitHash (v : List Char) : Bool :=
  v.all isHexCharCI && decide (7 ≤ v.length) && decide (v.length ≤ 40)

/-- Message of the invalid-version error thrown by `run`. -/
def invalidVersionMsg (v : List Char) : List Char :=
  str "Invalid LLVM version: " ++ v ++
    str ". Expected format: X.Y.Z or a commit hash (minimum 7 characters)."

/-- Model of the version-validation step of `run` (lines 169–176). -/
def validateVersion (v : List Char) : Except (List Char) Unit :=
  if isVersionTag v || isCommitHash v then .ok () else .error (invalidVersionMsg v)

/-- Message of the debug-on-non-Windows error thrown by `run`. -/
def debugOnlyWindowsMsg : List Char := str "Debug builds are only available on Windows."

/-- Model of the pure prefix of `run` (lines 161–176): the debug/Windows
gate followed by version validation.  `procPlatform` stands for
`process.platform`.  This prefix runs before `run` resolves any URL or
performs any network access (`getZstdLink` is its first network call). -/
def runChecks (llvmVersion platform : List Char) (debug : Bool)
    (procPlatform : List Char) : Except (List Char) Unit :=
  let isWindows := platform == str "windows" ||
    (platform == str "host" && procPlatform == str "win32")
  if debug && !isWindows then .error debugOnlyWindowsMsg
  else if !(isVersionTag llvmVersion || isCommitHash llvmVersion) then
    .error (invalidVersionMsg llvmVersion)
  else .ok ()

/-! ## Platform / architecture normalizer

From the platform module concatenated into `src/update-known-versions.ts`
(functions `getPlatform` lines 69–86, `getArchitecture` lines 93–109,
`determinePlatform`, `determineArchitecture`).  `procPlatform` and
`procArch` stand for `process.platform` and `process.arch`. -/

/-- Message of the invalid-platform error. -/
def invalidPlatformMsg (p : List Char) : List Char :=
  str "Invalid platform: " ++ p ++ str ". Expected linux, macOS, or windows."

/-- Message of the invalid-architecture error. -/
def invalidArchitectureMsg (a : List Char) : List Char :=
  str "Invalid architecture: " ++ a ++ str ". Expected X86 or AArch64."

/-- Model of `determinePlatform`. -/
def determinePlatform (procPlatform : List Char) : Except (List Char) (List Char) :=
  if procPlatform = str "linux" then .ok (str "linux")
  else if procPlatform = str "darwin" then .ok (str "macOS")
  else if procPlatform = str "win32" then .ok (str "windows")
  else .error (str "Unsupported platform: " ++ procPlatform)

/-- Model of `determineArchitecture`. -/
def determineArchitecture (procArch : List Char) : Except (List Char) (List Char) :=
  if procArch = str "x64" then .ok (str "X86")
  else if procArch = str "arm64" then .ok (str "AArch64")
  else .error (str "Unsupported architecture: " ++ procArch)

/-- Model of `getPlatform` of the platform module. -/
def getPlatform (platform procPlatform : List Char) : Except (List Char) (List Char) :=
  if platform ≠ str "host" ∧ platform ≠ str "linux" ∧ platform ≠ str "macOS" ∧
      platform ≠ str "windows" then
    .error (invalidPlatformMsg platform)
  else if platform = str "host" then determinePlatform procPlatform
  else .ok platform

/-- Model of `getArchitecture` of the platform module. -/
def getArchitecture (architecture procArch : List Char) : Except (List Char) (List Char) :=
  if architecture ≠ str "host" ∧ architecture ≠ str "X86" ∧
      architecture ≠ str "AArch64" then
    .error (invalidArchitectureMsg architecture)
  else if architecture = str "host" then determineArchitecture procArch
  else .ok architecture


/-! ## Manifest store

`src/utils/download.ts` and `src/utils/manifest.ts` share the manifest
schema carrying a `debug` flag (interface `ManifestEntry` in
`src/utils/manifest.ts`, lines 37-46); the newest implementation
(`src/unnamed/part_011` and `part_012`) uses a schema without the flag but
with inline zstd companion fields. -/

/-- Entry of the persisted version manifest, schema with a `debug` flag. -/
structure ManifestEntry where
  architecture : List Char
  asset_name : List Char
  debug : Bool
  download_url : List Char
  platform : List Char
  release_url : List Char
  tag : List Char
  version : List Char
deriving DecidableEq, Repr

/-- Entry of the persisted version manifest, newest schema with inline zstd
companion fields (`src/unnamed/part_011`, lines 36-46). -/
structure ManifestEntryZ where
  architecture : List Char
  asset_name : List Char
  download_url : List Char
  platform : List Char
  release_url : List Char
  tag : List Char
  version : List Char
  zstd_asset_name : List Char
  zstd_download_url : List Char
deriving DecidableEq, Repr

/-- Predicate of the `manifest.find` callback in `getManifestEntry` of
`src/utils/download.ts` (lines 46-52): the requested version must be a
prefix of the stored version (the request is compared verbatim), and the
stored platform, architecture and debug flag must equal the lower-cased
requested platform, the lower-cased requested architecture, and the
requested flag. -/
def entryMatches (version platform architecture : List Char) (debug : Bool)
    (e : ManifestEntry) : Bool :=
  version.isPrefixOf e.version && e.platform == lowerStr platform &&
    e.architecture == lowerStr architecture && e.debug == debug

/-- Message of the no-archive-found error of `getManifestEntry`
(`src/utils/download.ts`, lines 54-58). -/
def noArchiveMsg (architecture platform : List Char) (debug : Bool)
    (version : List Char) : List Char :=
  str "No " ++ architecture ++ str " " ++ platform ++
    (if debug then str " (debug)" else []) ++
    str " archive found for LLVM " ++ version ++ str "."

/-- Model of `getManifestEntry` of `src/utils/download.ts` (lines 37-60).
The `manifest` parameter stands for the parsed content of the manifest
file. -/
def getManifestEntry (manifest : List ManifestEntry)
    (version platform architecture : List Char) (debug : Bool) :
    Except (List Char) ManifestEntry :=
  match manifest.find? (entryMatches version platform architecture debug) with
  | some e => .ok e
  | none => .error (noArchiveMsg architecture platform debug version)

/-- Modelled from the spec: the platform normalizer imported by the newest
implementation (`platform.js` of the era of `src/unnamed/part_012`), which
is not among the provided sources.  Following the specification, section
4.1, it accepts exactly the literal tokens `host`, `linux`, `macos`,
`windows`, resolves `host` by inspecting the OS of the running process, and
returns the lower-cased canonical platform of the data model of section 3
(which is what the stored manifest entries of `part_011` carry). -/
def getPlatformSpec (platform procPlatform : List Char) :
    Except (List Char) (List Char) :=
  if platform = str "linux" ∨ platform = str "macos" ∨ platform = str "windows" then
    .ok platform
  else if platform = str "host" then
    if procPlatform = str "linux" then .ok (str "linux")
    else if procPlatform = str "darwin" then .ok (str "macos")
    else if procPlatform = str "win32" then .ok (str "windows")
    else .error (str "Unsupported platform: " ++ procPlatform)
  else .error (str "Invalid platform: " ++ platform)

/-- Modelled from the spec: the architecture normalizer imported by the
newest implementation (`platform.js` of the era of `src/unnamed/part_012`),
which is not among the provided sources.  Following the specification,
section 4.1, it accepts exactly `host`, `x86`, `aarch64` and returns the
lower-cased canonical architecture of the data model of section 3. -/
def getArchitectureSpec (architecture procArch : List Char) :
    Except (List Char) (List Char) :=
  if architecture = str "x86" ∨ architecture = str "aarch64" then
    .ok architecture
  else if architecture = str "host" then
    if procArch = str "x64" then .ok (str "x86")
    else if procArch = str "arm64" then .ok (str "aarch64")
    else .error (str "Unsupported architecture: " ++ procArch)
  else .error (str "Invalid architecture: " ++ architecture)

/-- Model of `getManifestEntry` of `src/unnamed/part_012` (lines 31-57):
the sibling implementation that lower-cases the requested version before
the prefix comparison and matches the normalized platform and architecture
without further case adjustment. -/
def getManifestEntryZ (manifest : List ManifestEntryZ)
    (version platform architecture procPlatform procArch : List Char) :
    Except (List Char) ManifestEntryZ :=
  match getPlatformSpec platform procPlatform with
  | .error e => .error e
  | .ok p =>
    match getArchitectureSpec architecture procArch with
    | .error e => .error e
    | .ok a =>
      match manifest.find? (fun e =>
          (lowerStr version).isPrefixOf e.version && e.platform == p &&
            e.architecture == a) with
      | some e => .ok e
      | none =>
        .error (str "No " ++ a ++ str " " ++ p ++
          str " archive found for LLVM " ++ lowerStr version ++ str ".")


/-! ## Asset name codec

`src/utils/manifest.ts` parses primary asset names with
`/llvm-mlir_(.+?)_(.+?)_(.+)_(X86|AArch64)(_debug)?\./i` (function
`getPlatformFromAsset`, lines 53-61, which returns match[2], match[4], and
whether group 5 matched) and extracts versions with
`/llvm-mlir_llvmorg-(\d+\.\d+\.\d+)_/i`, falling back to
`/llvm-mlir_([0-9a-f]{7,40})_/i` (function `getVersionFromAsset`, lines
68-78).  The newest implementation (`src/unnamed/part_011`) matches primary
names with `/llvm-mlir_(.+?)_(.+?)_(.+)_(x86|aarch64)\./i` (no debug group)
and companion names with `/zstd-(.+?)_(.+?)_(.+)_(x86|aarch64)\./i`; under
the `i` flag the architecture alternatives of all three are the same, so
one matcher parameterized by the leading literal and the presence of the
debug group models them all. -/

/-- Alternation `(X86|AArch64)` (equally `(x86|aarch64)`) under the `i`
flag, capturing the consumed input verbatim.  The two alternatives start
with different letters, so at most one can match at a given position and
the left-to-right order of alternatives needs no backtracking. -/
def archAlt (l : List Char) : Option (List Char × List Char) :=
  match takeCI (str "x86") l with
  | some r => some r
  | none => takeCI (str "aarch64") l

/-- Optional greedy `(_debug)?` followed by the literal `\.` (under the `i`
flag): first try to consume `_debug` and then require a dot; if either
fails, retry without consuming and require the dot directly.  Returns
whether the group matched.  When `withDebug` is false the pattern has no
such group and only the dot is required. -/
def debugDotTail (withDebug : Bool) (l : List Char) : Option Bool :=
  if withDebug then
    match stripCI (str "_debug") l with
    | some r =>
      match expectChar '.' r with
      | some _ => some true
      | none =>
        match expectChar '.' l with
        | some _ => some false
        | none => none
    | none =>
      match expectChar '.' l with
      | some _ => some false
      | none => none
  else
    match expectChar '.' l with
    | some _ => some false
    | none => none

/-- Tail `_(X86|AArch64)(_debug)?\.` of the template patterns. -/
def archDebugTail (withDebug : Bool) (l : List Char) : Option (List Char × Bool) :=
  match archAlt l with
  | none => none
  | some (g4, r) =>
    match debugDotTail withDebug r with
    | some dbg => some (g4, dbg)
    | none => none

/-- Continuation after the leading literal:
`(.+?)_(.+?)_(.+)_(X86|AArch64)(_debug)?\.` with backtracking semantics
(lazy group 1, lazy group 2, greedy group 3).  Returns
(group 2, group 4, debug group matched). -/
def tmplTail (withDebug : Bool) (r1 : List Char) :
    Option (List Char × List Char × Bool) :=
  lazyPlus jsDot r1 (fun _ r2 =>
    (expectChar '_' r2).bind (fun r3 =>
      lazyPlus jsDot r3 (fun g2 r4 =>
        (expectChar '_' r4).bind (fun r5 =>
          greedyPlus jsDot r5 (fun _ r6 =>
            (expectChar '_' r6).bind (fun r7 =>
              (archDebugTail withDebug r7).map (fun g4dbg =>
                (g2, g4dbg.1, g4dbg.2))))))))

/-- Unanchored match of a full template pattern
`lit(.+?)_(.+?)_(.+)_(X86|AArch64)(_debug)?\.` with the `i` flag, scanning
start positions left to right. -/
def tmplMatch (lit : List Char) (withDebug : Bool) (name : List Char) :
    Option (List Char × List Char × Bool) :=
  scanPos name (fun l => (stripCI lit l).bind (tmplTail withDebug))

/-- Model of `getPlatformFromAsset` of `src/utils/manifest.ts` (lines
53-61): the platform label (match[2]), the architecture token (match[4],
verbatim), and the presence of the `_debug` group. -/
def getPlatformFromAsset (assetName : List Char) :
    Except (List Char) (List Char × List Char × Bool) :=
  match tmplMatch (str "llvm-mlir_") true assetName with
  | some r => .ok r
  | none =>
    .error (str "Could not extract platform from asset name: " ++ assetName)

/-- Capture of `llvm-mlir_llvmorg-(\d+\.\d+\.\d+)_` at one position.  The
greedy `\d+` runs are deterministic: a shorter run than the maximal one
leaves a digit as the next character, which can match neither the literal
dot nor the underscore, so the maximal run is the only candidate. -/
def versionTagCapture (l : List Char) : Option (List Char) :=
  (stripCI (str "llvm-mlir_llvmorg-") l).bind fun r =>
  (takeDigits r).bind fun dr1 =>
  (expectChar '.' dr1.2).bind fun r2 =>
  (takeDigits r2).bind fun dr2 =>
  (expectChar '.' dr2.2).bind fun r4 =>
  (takeDigits r4).bind fun dr3 =>
  (expectChar '_' dr3.2).map fun _ => dr1.1 ++ '.' :: (dr2.1 ++ '.' :: dr3.1)

/-- Unanchored scan of `/llvm-mlir_llvmorg-(\d+\.\d+\.\d+)_/i`. -/
def versionTagScan (name : List Char) : Option (List Char) :=
  scanPos name versionTagCapture

/-- Capture of `llvm-mlir_([0-9a-f]{7,40})_` (flag `i`) at one position:
greedy counted repetition, trying 40 (bounded by the remaining length)
down to 7 characters. -/
def hashCapture (l : List Char) : Option (List Char) :=
  (stripCI (str "llvm-mlir_") l).bind fun r =>
  firstSomeDown (fun k =>
    if 7 ≤ k ∧ (r.take k).length = k ∧ (r.take k).all isHexCharCI then
      (expectChar '_' (r.drop k)).map fun _ => r.take k
    else none) (min 40 r.length)

/-- Unanchored scan of `/llvm-mlir_([0-9a-f]{7,40})_/i`. -/
def hashScan (name : List Char) : Option (List Char) :=
  scanPos name hashCapture

/-- Model of `getVersionFromAsset` of `src/utils/manifest.ts` (lines
68-78): first the release-version form, then the commit-hash form, else an
error. -/
def getVersionFromAsset (assetName : List Char) : Except (List Char) (List Char) :=
  match versionTagScan assetName with
  | some v => .ok v
  | none =>
    match hashScan assetName with
    | some h => .ok h
    | none =>
      .error (str "Could not extract version from asset name: " ++ assetName)

/-- Model of `getVersionFromAssetName` of `src/unnamed/part_011` (lines
102-112): as `getVersionFromAsset`, but the captured group is lower-cased. -/
def getVersionFromAssetName011 (assetName : List Char) :
    Except (List Char) (List Char) :=
  match versionTagScan assetName with
  | some v => .ok (lowerStr v)
  | none =>
    match hashScan assetName with
    | some h => .ok (lowerStr h)
    | none =>
      .error (str "Could not extract version from asset name: " ++ assetName)

/-! ## Release source and companion (zstd) resolution -/

/-- A release asset as exposed by the release API. -/
structure ReleaseAsset where
  name : List Char
  browser_download_url : List Char
deriving DecidableEq, Repr

/-- A release as exposed by the release API. -/
structure Release where
  tag_name : List Char
  html_url : List Char
  created_at : List Char
  assets : List ReleaseAsset
deriving DecidableEq, Repr

/-- The upstream release source: the full release list (as returned by the
paginated listing) together with the designated latest release. -/
structure ReleaseSource where
  releases : List Release
  latest : Release
deriving DecidableEq, Repr

/-- Model of `GET /repos/../releases/tags/:tag`: the release carrying the
tag, or a not-found failure. -/
def getReleaseByTag (src : ReleaseSource) (tag : List Char) :
    Except (List Char) Release :=
  match src.releases.find? (fun r => r.tag_name == tag) with
  | some r => .ok r
  | none => .error (str "Not Found")

/-- Character class `[A-Za-z0-9._-]` of the companion pattern. -/
def zstdClassChar (c : Char) : Bool :=
  (65 ≤ c.toNat && c.toNat ≤ 90) || (97 ≤ c.toNat && c.toNat ≤ 122) ||
    isDigitChar c || c == '.' || c == '_' || c == '-'

/-- Match a literal whose dots are unescaped regex dots (the interpolated
`${extension}` of the companion pattern): a dot in the pattern matches any
`jsDot` character, other characters match case-insensitively. -/
def extMatch : List Char → List Char → Option (List Char)
  | [], l => some l
  | _ :: _, [] => none
  | p :: ps, x :: xs =>
    if p = '.' then (if jsDot x then extMatch ps xs else none)
    else (if ciEq x p then extMatch ps xs else none)

/-- Test of the companion pattern
`^zstd-[A-Za-z0-9._-]+_${platform}_[A-Za-z0-9._-]+_${architecture}\.${extension}$`
with the `i` flag (`getZstdAsset` of `src/utils/download.ts`, lines
69-81), where the extension is `zip` when the lower-cased platform is
`windows` and `tar.gz` otherwise.  The two `[A-Za-z0-9._-]+` groups are
greedy and the class contains `_` and `.`, so full backtracking applies. -/
def zstdNameMatches (platform architecture name : List Char) : Bool :=
  let pl := lowerStr platform
  let ext := if pl = str "windows" then str "zip" else str "tar.gz"
  ((stripCI (str "zstd-") name).bind fun r1 =>
   greedyPlus zstdClassChar r1 fun _ r2 =>
   (expectChar '_' r2).bind fun r3 =>
   (stripCI pl r3).bind fun r4 =>
   (expectChar '_' r4).bind fun r5 =>
   greedyPlus zstdClassChar r5 fun _ r6 =>
   (expectChar '_' r6).bind fun r7 =>
   (stripCI architecture r7).bind fun r8 =>
   (expectChar '.' r8).bind fun r9 =>
   (extMatch ext r9).bind fun r10 =>
   if r10 = [] then some () else none).isSome

/-- Model of `getZstdAsset` (`src/utils/download.ts` lines 69-81 and
`src/utils/manifest.ts` lines 173-185): the first asset whose name matches
the companion pattern. -/
def getZstdAsset (assets : List ReleaseAsset) (platform architecture : List Char) :
    Option ReleaseAsset :=
  assets.find? (fun a => zstdNameMatches platform architecture a.name)

/-- Test of `/^\d{4}\.\d{2}\.\d{2}$/` used by `getZstdUrl` of
`src/utils/download.ts` to validate the manifest tag. -/
def tagFormatOk : List Char → Bool
  | [y1, y2, y3, y4, s1, m1, m2, s2, d1, d2] =>
    isDigitChar y1 && isDigitChar y2 && isDigitChar y3 && isDigitChar y4 &&
      s1 == '.' && isDigitChar m1 && isDigitChar m2 && s2 == '.' &&
      isDigitChar d1 && isDigitChar d2
  | _ => false

/-- Message of the no-companion-found error. -/
def noCompanionMsg (architecture platform : List Char) : List Char :=
  str "No zstd binary found for " ++ architecture ++ str " " ++ platform ++ str "."

/-- Model of `getZstdUrl` of `src/utils/download.ts` (lines 91-138): after
normalization and manifest lookup, search the release recorded in the
matched entry for a companion asset; only when that release has none, query
the latest release and search there; fail when neither has one. -/
def getZstdUrl_download (src : ReleaseSource) (manifest : List ManifestEntry)
    (version platform architecture procPlatform procArch : List Char) :
    Except (List Char) (List Char × List Char) := do
  let platform ← getPlatform platform procPlatform
  let architecture ← getArchitecture architecture procArch
  let entry ← getManifestEntry manifest version platform architecture false
  let tag := entry.tag
  if !tagFormatOk tag then
    throw (str "Invalid tag in manifest: " ++ tag)
  let release ← getReleaseByTag src tag
  match getZstdAsset release.assets platform architecture with
  | some asset => return (asset.browser_download_url, asset.name)
  | none =>
    match getZstdAsset src.latest.assets platform architecture with
    | some asset => return (asset.browser_download_url, asset.name)
    | none => throw (noCompanionMsg architecture platform)

/-- Model of `getZstdUrl` of `src/utils/manifest.ts` (lines 187-234): after
normalization and manifest lookup it searches the release recorded in the
matched entry, but the result of that search is only used for an
informational log line; the code then unconditionally queries the latest
release and overwrites the variable with the result of the companion search
there, so the asset returned (or the failure raised) is always determined
by the latest release alone. -/
def getZstdUrl_manifest (src : ReleaseSource) (manifest : List ManifestEntry)
    (version platform architecture procPlatform procArch : List Char) :
    Except (List Char) (List Char × List Char) := do
  let platform ← getPlatform platform procPlatform
  let architecture ← getArchitecture architecture procArch
  let entry ← getManifestEntry manifest version platform architecture false
  let release ← getReleaseByTag src entry.tag
  let _assetOfEntryRelease := getZstdAsset release.assets platform architecture
  let latestRelease := src.latest
  match getZstdAsset latestRelease.assets platform architecture with
  | some asset => return (asset.browser_download_url, asset.name)
  | none => throw (noCompanionMsg architecture platform)


/-! ## Stable sort on a JavaScript comparator

`Array.prototype.sort` is stable (ES2019) and its result on a consistent
comparator is the unique stable sort of the input; it is modelled by a
stable insertion sort: an element is inserted before the first element of
the already-sorted tail that does not compare strictly smaller, so earlier
elements stay before later elements that compare equal. -/

/-- Insert `x` before the first element `y` with `cmp x y ≠ .gt`. -/
def insertCmp (cmp : α → α → Ordering) (x : α) : List α → List α
  | [] => [x]
  | y :: ys => if cmp x y = .gt then y :: insertCmp cmp x ys else x :: y :: ys

/-- Stable insertion sort by a comparator. -/
def sortCmp (cmp : α → α → Ordering) : List α → List α
  | [] => []
  | x :: xs => insertCmp cmp x (sortCmp cmp xs)

/-- Three-way comparison of characters by code unit. -/
def charCmp (a b : Char) : Ordering :=
  if a.toNat < b.toNat then .lt else if b.toNat < a.toNat then .gt else .eq

/-- Lexicographic three-way comparison of strings: the model of
`String.prototype.localeCompare` on the ASCII data of this code base. -/
def lexCmp : List Char → List Char → Ordering
  | [], [] => .eq
  | [], _ :: _ => .lt
  | _ :: _, [] => .gt
  | a :: as, b :: bs =>
    match charCmp a b with
    | .eq => lexCmp as bs
    | o => o

/-- Comparator of the manifest sort of `src/utils/manifest.ts` (lines
134-142): tag descending, then platform ascending, then architecture
ascending. -/
def entryCmp (a b : ManifestEntry) : Ordering :=
  if a.tag ≠ b.tag then lexCmp b.tag a.tag
  else if a.platform ≠ b.platform then lexCmp a.platform b.platform
  else lexCmp a.architecture b.architecture

/-- Comparator of the manifest sort of `src/unnamed/part_011` (lines
252-260): the same key order on the newest schema. -/
def entryCmpZ (a b : ManifestEntryZ) : Ordering :=
  if a.tag ≠ b.tag then lexCmp b.tag a.tag
  else if a.platform ≠ b.platform then lexCmp a.platform b.platform
  else lexCmp a.architecture b.architecture

/-! ## Manifest rebuild of `src/utils/manifest.ts`

`updateManifest` (lines 83-145) fetches the release list page by page (in
API order, without reordering), pushes one entry for every asset whose name
starts with `llvm-mlir` across all releases, with no deduplication of any
kind, sorts by tag descending / platform ascending / architecture
ascending, and persists.  `getPlatformFromAsset` and `getVersionFromAsset`
throw on a name that does not fit, and nothing catches the exception, so
one malformed `llvm-mlir*` asset aborts the whole rebuild. -/

/-- Entry built from one asset (lines 113-129): tag and asset name are cut
out of the download URL (second-to-last and last slash-separated parts),
platform and architecture are lower-cased, the debug flag is taken from the
name.  Parse failures propagate. -/
def parseAssetEntry (release : Release) (asset : ReleaseAsset) :
    Except (List Char) ManifestEntry :=
  let urlParts := asset.browser_download_url.splitOn '/'
  let tag := urlParts.getD (urlParts.length - 2) []
  let assetName := urlParts.getD (urlParts.length - 1) []
  match getPlatformFromAsset assetName with
  | .error e => .error e
  | .ok pad =>
    match getVersionFromAsset assetName with
    | .error e => .error e
    | .ok version =>
      .ok { architecture := lowerStr pad.2.1, asset_name := assetName,
            debug := pad.2.2, download_url := asset.browser_download_url,
            platform := lowerStr pad.1, release_url := release.html_url,
            tag := tag, version := version }

/-- Scan of the assets of one release (the inner loop of lines 111-132). -/
def scanAssets (release : Release) : List ReleaseAsset →
    Except (List Char) (List ManifestEntry)
  | [] => .ok []
  | a :: as =>
    if (str "llvm-mlir").isPrefixOf a.name then
      match parseAssetEntry release a with
      | .error e => .error e
      | .ok entry =>
        match scanAssets release as with
        | .error e => .error e
        | .ok rest => .ok (entry :: rest)
    else scanAssets release as

/-- Scan of all releases (the outer loop of lines 111-132). -/
def scanReleases : List Release → Except (List Char) (List ManifestEntry)
  | [] => .ok []
  | r :: rs =>
    match scanAssets r r.assets with
    | .error e => .error e
    | .ok first =>
      match scanReleases rs with
      | .error e => .error e
      | .ok rest => .ok (first ++ rest)

/-- Model of the pure part of `updateManifest` of `src/utils/manifest.ts`
(lines 109-145): the scan over all fetched releases followed by the sort;
the result is what `JSON.stringify(manifest)` persists. -/
def updateManifestPure (releases : List Release) :
    Except (List Char) (List ManifestEntry) :=
  match scanReleases releases with
  | .error e => .error e
  | .ok entries => .ok (sortCmp entryCmp entries)

/-! ## Manifest rebuild of `src/unnamed/part_011`

`updateManifest` there (lines 172-273) sorts the releases by
`created_at` descending (`getReleases`, line 93), keeps a version set, a
per-(platform, architecture) table of first-seen zstd companions, and a
warning list; per release it first records companions, then scans primary
assets, skipping names that do not match the pattern silently and turning
version-extraction failures and missing companions into warnings that skip
only the asset. -/

/-- Model of `getReleases` of `src/unnamed/part_011` (lines 71-95): the
fetched releases sorted by creation date, newest first. -/
def sortReleases011 (releases : List Release) : List Release :=
  sortCmp (fun a b => lexCmp b.created_at a.created_at) releases

/-- Table of first-seen zstd companions keyed by (platform, architecture). -/
abbrev ZstdInfo := List ((List Char × List Char) × (List Char × List Char))

/-- Lookup in the companion table. -/
def zstdLookup (zi : ZstdInfo) (key : List Char × List Char) :
    Option (List Char × List Char) :=
  (zi.find? (fun kv => kv.1 == key)).map (fun kv => kv.2)

/-- First pass over the assets of one release (lines 186-204): record the
companion of every matching `zstd-` asset unless the (platform,
architecture) slot is already taken. -/
def zstdPass (zi : ZstdInfo) : List ReleaseAsset → ZstdInfo
  | [] => zi
  | a :: as =>
    let zi2 :=
      if (str "zstd-").isPrefixOf a.name then
        match tmplMatch (str "zstd-") false a.name with
        | some g =>
          let key := (lowerStr g.1, lowerStr g.2.1)
          match zstdLookup zi key with
          | some _ => zi
          | none => zi ++ [(key, (a.name, a.browser_download_url))]
        | none => zi
      else zi
    zstdPass zi2 as

/-- State of the scan of `updateManifest` of `src/unnamed/part_011`. -/
structure Scan011State where
  versions : List (List Char)
  zstdInfo : ZstdInfo
  manifest : List ManifestEntryZ
  warnings : List (List Char)
deriving DecidableEq, Repr

/-- One primary asset of the second pass (lines 205-245).  A name that does
not match the pattern is skipped with no entry and no warning; a matching
name whose version cannot be extracted, or that has no recorded companion,
adds a warning and no entry; otherwise an entry is appended.  The
release-scoped `version` variable is threaded as in the source: it is
updated on every successful extraction, also when the version was already
known and the asset is skipped. -/
def llvmAssetStep (release : Release) (st : Scan011State)
    (versionVar : Option (List Char)) (a : ReleaseAsset) :
    Scan011State × Option (List Char) :=
  match tmplMatch (str "llvm-mlir_") false a.name with
  | none => (st, versionVar)
  | some g =>
    match getVersionFromAssetName011 a.name with
    | .error msg =>
      ({ st with warnings :=
          st.warnings ++ [str "Skipping asset " ++ a.name ++ str ": " ++ msg] },
        versionVar)
    | .ok version =>
      if st.versions.contains version then (st, some version)
      else
        let key := (lowerStr g.1, lowerStr g.2.1)
        match zstdLookup st.zstdInfo key with
        | none =>
          ({ st with warnings := st.warnings ++
              [str "Skipping asset " ++ a.name ++ str ": " ++
                (str "No zstd binary found for " ++ a.name ++ str ".")] },
            some version)
        | some zinfo =>
          ({ st with manifest := st.manifest ++
              [{ architecture := key.2, asset_name := a.name,
                 download_url := a.browser_download_url, platform := key.1,
                 release_url := release.html_url, tag := release.tag_name,
                 version := version, zstd_asset_name := zinfo.1,
                 zstd_download_url := zinfo.2 }] },
            some version)

/-- Second pass over the assets of one release. -/
def llvmPass (release : Release) (st : Scan011State)
    (versionVar : Option (List Char)) :
    List ReleaseAsset → Scan011State × Option (List Char)
  | [] => (st, versionVar)
  | a :: as =>
    let sv := llvmAssetStep release st versionVar a
    llvmPass release sv.1 sv.2 as

/-- Processing of one release (the body of the loop at lines 184-249):
companion pass, primary pass, then the last extracted version (when any)
joins the version set. -/
def processRelease011 (st : Scan011State) (release : Release) : Scan011State :=
  let st1 := { st with zstdInfo := zstdPass st.zstdInfo release.assets }
  let sv := llvmPass release st1 none release.assets
  match sv.2 with
  | some v =>
    if sv.1.versions.contains v then sv.1
    else { sv.1 with versions := sv.1.versions ++ [v] }
  | none => sv.1

/-- Model of the pure part of `updateManifest` of `src/unnamed/part_011`
(lines 172-262): scan the releases newest-first, then sort the entries; the
first component is what `JSON.stringify(manifest, null, 2) + "\n"`
persists, the second the warnings logged along the way. -/
def updateManifest011 (releases : List Release) :
    List ManifestEntryZ × List (List Char) :=
  let st := (sortReleases011 releases).foldl processRelease011 ⟨[], [], [], []⟩
  (sortCmp entryCmpZ st.manifest, st.warnings)

/-! ## Serialization of the persisted manifest document -/

/-- Left brace character (written by code point). -/
def lbrace : Char := Char.ofNat 123

/-- Right brace character (written by code point). -/
def rbrace : Char := Char.ofNat 125

/-- Newline character. -/
def nlChar : Char := Char.ofNat 10

/-- JSON escaping of one character (the cases that can occur in the data
handled here). -/
def jsonEscapeChar (c : Char) : List Char :=
  if c = '"' then ['\\', '"']
  else if c = '\\' then ['\\', '\\']
  else if c.toNat = 10 then ['\\', 'n']
  else if c.toNat = 13 then ['\\', 'r']
  else if c.toNat = 9 then ['\\', 't']
  else [c]

/-- A JSON string literal. -/
def jsonStr (l : List Char) : List Char :=
  '"' :: (l.map jsonEscapeChar).flatten ++ ['"']

/-- Concatenation with a separator. -/
def joinSep (sep : List Char) : List (List Char) → List Char
  | [] => []
  | [x] => x
  | x :: xs => x ++ sep ++ joinSep sep xs

/-- One field line of `JSON.stringify(manifest, null, 2)` at depth two. -/
def serializeField (k v : List Char) : List Char :=
  str "    " ++ jsonStr k ++ str ": " ++ jsonStr v

/-- One entry of the newest schema as `JSON.stringify(manifest, null, 2)`
renders it (object keys in insertion order of lines 226-236). -/
def serializeEntryZ (e : ManifestEntryZ) : List Char :=
  [lbrace, nlChar] ++
  joinSep [',', nlChar]
    [serializeField (str "architecture") e.architecture,
     serializeField (str "asset_name") e.asset_name,
     serializeField (str "download_url") e.download_url,
     serializeField (str "platform") e.platform,
     serializeField (str "release_url") e.release_url,
     serializeField (str "tag") e.tag,
     serializeField (str "version") e.version,
     serializeField (str "zstd_asset_name") e.zstd_asset_name,
     serializeField (str "zstd_download_url") e.zstd_download_url] ++
  [nlChar] ++ str "  " ++ [rbrace]

/-- The persisted document of `src/unnamed/part_011` (line 262):
`JSON.stringify(manifest, null, 2) + "\n"`. -/
def serializeManifestZ : List ManifestEntryZ → List Char
  | [] => str "[]" ++ [nlChar]
  | e :: es =>
    '[' :: nlChar ::
      joinSep [',', nlChar]
        ((e :: es).map (fun x => str "  " ++ serializeEntryZ x)) ++
      [nlChar, ']'] ++ [nlChar]


/-- Case-insensitive equality of two strings of the same length. -/
def ciStrEq : List Char → List Char → Bool
  | [], [] => true
  | p :: ps, x :: xs => ciEq x p && ciStrEq ps xs
  | _, _ => false


/-- A well-formed synthetic asset name built from the naming template
`llvm-mlir_{versionToken}_{platformLabel}_{osLabel}_{archToken}[_debug].{ext}`. -/
def buildAssetName (v pl os arch : List Char) (debug : Bool) (ext : List Char) :
    List Char :=
  str "llvm-mlir_" ++
    (v ++ '_' :: (pl ++ '_' :: (os ++ '_' ::
      (arch ++ ((if debug then str "_debug" else []) ++ '.' :: ext)))))


/-! ## Concrete fixtures used by counterexamples and witnesses -/

/-- Primary asset name shared by the duplicate-key releases. -/
def cxAssetName : List Char := str "llvm-mlir_abcdef11_linux_ubuntu-24.04_X86.tar.zst"

/-- Download URL of the newer duplicate. -/
def cxUrlNewer : List Char :=
  str "https://e/releases/download/2025.01.02/llvm-mlir_abcdef11_linux_ubuntu-24.04_X86.tar.zst"

/-- Download URL of the older duplicate. -/
def cxUrlOlder : List Char :=
  str "https://e/releases/download/2025.01.01/llvm-mlir_abcdef11_linux_ubuntu-24.04_X86.tar.zst"

/-- Newer release carrying the shared asset, plus a zstd companion. -/
def cxRelNewer : Release :=
  ⟨str "2025.01.02", str "https://e/tag/2025.01.02", str "2025-01-02T00:00:00Z",
    [⟨cxAssetName, cxUrlNewer⟩]⟩

/-- Older release carrying an asset with the identical key tuple. -/
def cxRelOlder : Release :=
  ⟨str "2025.01.01", str "https://e/tag/2025.01.01", str "2025-01-01T00:00:00Z",
    [⟨cxAssetName, cxUrlOlder⟩]⟩

/-- Entry produced from the newer duplicate. -/
def cxEntryNewer : ManifestEntry :=
  ⟨str "x86", cxAssetName, false, cxUrlNewer, str "linux",
    str "https://e/tag/2025.01.02", str "2025.01.02", str "abcdef11"⟩

/-- Entry produced from the older duplicate. -/
def cxEntryOlder : ManifestEntry :=
  ⟨str "x86", cxAssetName, false, cxUrlOlder, str "linux",
    str "https://e/tag/2025.01.01", str "2025.01.01", str "abcdef11"⟩

/-- Release carrying an asset whose name starts with `llvm-mlir` but fits
neither the platform nor the version pattern. -/
def cxRelBad : Release :=
  ⟨str "2025.01.03", str "https://e/tag/2025.01.03", str "2025-01-03T00:00:00Z",
    [⟨str "llvm-mlir-notes.txt",
      str "https://e/releases/download/2025.01.03/llvm-mlir-notes.txt"⟩]⟩

/-- A zstd companion asset for linux/x86. -/
def cxZstdAsset : ReleaseAsset :=
  ⟨str "zstd-1.5.6_linux_ubuntu-24.04_x86.tar.gz", str "https://e/zstd.tar.gz"⟩

/-- The release recorded in the manifest entry, carrying the companion. -/
def cxRelWithZstd : Release :=
  ⟨str "2025.01.02", str "https://e/tag/2025.01.02", str "2025-01-02T00:00:00Z",
    [⟨cxAssetName, cxUrlNewer⟩, cxZstdAsset]⟩

/-- The latest release, carrying no companion at all. -/
def cxLatestNoZstd : Release :=
  ⟨str "2025.01.05", str "https://e/tag/2025.01.05", str "2025-01-05T00:00:00Z", []⟩

/-- Release source whose latest release lacks the companion present in the
entry-recorded release. -/
def cxSrc : ReleaseSource := ⟨[cxLatestNoZstd, cxRelWithZstd], cxLatestNoZstd⟩

/-- One-entry manifest pointing at the release that has the companion. -/
def cxManifest : List ManifestEntry := [cxEntryNewer]

/-- A release whose primary asset matches the name pattern but whose
version token `beta` can not be extracted. -/
def cxBetaAsset : ReleaseAsset :=
  ⟨str "llvm-mlir_beta_linux_ubuntu-24.04_X86.tar.zst", str "https://e/beta"⟩

-- ===== END OF DEFINITIONS =====

/-! ## Lemmas on digit runs -/

theorem takeWhile_of_all {p : α → Bool} {l : List α} (h : l.all p = true) :
    l.takeWhile p = l ∧ l.dropWhile p = [] := by
  induction l with
  | nil => simp
  | cons x xs ih =>
    simp only [List.all_cons, Bool.and_eq_true] at h
    simp [List.takeWhile_cons, List.dropWhile_cons, h.1, ih h.2]

theorem takeWhile_all_append_cons {p : α → Bool} {a : List α} {c : α} {r : List α}
    (ha : a.all p = true) (hc : p c = false) :
    (a ++ c :: r).takeWhile p = a ∧ (a ++ c :: r).dropWhile p = c :: r := by
  induction a with
  | nil => simp [List.takeWhile_cons, List.dropWhile_cons, hc]
  | cons x xs ih =>
    simp only [List.all_cons, Bool.and_eq_true] at ha
    simp [List.takeWhile_cons, List.dropWhile_cons, ha.1, ih ha.2]

theorem takeDigits_eq_some {l d r : List Char} (h : takeDigits l = some (d, r)) :
    l = d ++ r ∧ d ≠ [] ∧ d.all isDigitChar = true ∧
      ∀ c rs, r = c :: rs → isDigitChar c = false := by
  unfold takeDigits at h
  by_cases he : (l.takeWhile isDigitChar).isEmpty
  · simp [he] at h
  · simp only [he, if_neg, Bool.false_eq_true, not_false_eq_true, if_false,
      Option.some.injEq, Prod.mk.injEq] at h
    obtain ⟨hd, hr⟩ := h
    subst hd; subst hr
    refine ⟨(List.takeWhile_append_dropWhile isDigitChar l).symm, ?_, ?_, ?_⟩
    · intro hnil; rw [hnil] at he; simp at he
    · exact List.all_eq_true.mpr fun x hx => List.mem_takeWhile_imp hx
    · intro c rs hcr
      have := List.head?_dropWhile_not isDigitChar l
      rw [hcr] at this
      simpa using this

theorem takeDigits_append {a : List Char} {c : Char} {r : List Char}
    (ha : a.all isDigitChar = true) (hne : a ≠ []) (hc : isDigitChar c = false) :
    takeDigits (a ++ c :: r) = some (a, c :: r) := by
  obtain ⟨ht, hd⟩ := @takeWhile_all_append_cons Char isDigitChar a c r ha hc
  unfold takeDigits
  simp only [ht, hd]
  rw [if_neg]
  simp [List.isEmpty_iff, hne]

theorem takeDigits_of_all {c : List Char} (hc : c.all isDigitChar = true) (hne : c ≠ []) :
    takeDigits c = some (c, []) := by
  obtain ⟨ht, hd⟩ := @takeWhile_of_all Char isDigitChar c hc
  unfold takeDigits
  simp only [ht, hd]
  rw [if_neg]
  simp [List.isEmpty_iff, hne]

theorem expectChar_cons_self (c : Char) (r : List Char) :
    expectChar c (c :: r) = some r := by
  simp [expectChar]

theorem expectChar_eq_some {c : Char} {l r : List Char} (h : expectChar c l = some r) :
    l = c :: r := by
  match l with
  | [] => simp [expectChar] at h
  | x :: xs =>
    simp only [expectChar] at h
    by_cases hx : x = c
    · simp [hx] at h; simp [hx, h]
    · simp [hx] at h

/-- Declarative shape of `^\d+\.\d+\.\d+$`: three nonempty digit runs
separated by literal dots. -/
def VersionShape (v : List Char) : Prop :=
  ∃ a b c : List Char, a ≠ [] ∧ b ≠ [] ∧ c ≠ [] ∧
    a.all isDigitChar = true ∧ b.all isDigitChar = true ∧ c.all isDigitChar = true ∧
    v = a ++ '.' :: (b ++ '.' :: c)

theorem isVersionTag_iff (v : List Char) : isVersionTag v = true ↔ VersionShape v := by
  constructor
  · intro h
    unfold isVersionTag at h
    rw [Option.isSome_iff_exists] at h
    obtain ⟨u, hu⟩ := h
    simp only [Option.bind_eq_bind, Option.bind_eq_some] at hu
    obtain ⟨⟨d1, r1⟩, h1, ⟨r2, h2, ⟨⟨d2, r3⟩, h3, ⟨r4, h4, ⟨⟨d3, r5⟩, h5, h6⟩⟩⟩⟩⟩ := hu
    have h2' : expectChar '.' r1 = some r2 := h2
    have h4' : expectChar '.' r3 = some r4 := h4
    have h6' : (if r5 = [] then some () else none) = some u := h6
    have e1 := takeDigits_eq_some h1
    have e2 := expectChar_eq_some h2'
    have e3 := takeDigits_eq_some h3
    have e4 := expectChar_eq_some h4'
    have e5 := takeDigits_eq_some h5
    have hr5 : r5 = [] := by
      by_cases h : r5 = []
      · exact h
      · simp [h] at h6'
    refine ⟨d1, d2, d3, e1.2.1, e3.2.1, e5.2.1, e1.2.2.1, e3.2.2.1, e5.2.2.1, ?_⟩
    rw [e1.1, e2, e3.1, e4, e5.1, hr5, List.append_nil]
  · rintro ⟨a, b, c, ha, hb, hc, da, db, dc, rfl⟩
    have hdot : isDigitChar '.' = false := by decide
    unfold isVersionTag
    rw [takeDigits_append da ha hdot]
    simp only [Option.bind_eq_bind, Option.some_bind, expectChar_cons_self]
    rw [takeDigits_append db hb hdot]
    simp only [Option.some_bind, expectChar_cons_self]
    rw [takeDigits_of_all dc hc]
    simp

/-- C4: the requested version string is accepted as an exact version exactly
when it consists of three dot-separated nonempty digit runs
(`^\d+\.\d+\.\d+$`), accepted as a commit prefix exactly when it consists of
7 to 40 hexadecimal characters case-insensitively (`^[0-9a-f]{7,40}$` with
flag `i`), and otherwise the validation step of `run` fails with the
invalid-version error; examples `21.1` and `v21.1.8` both fail.  The
validation (`validateVersion`, lines 169-176 of the concatenated
`src/get-download-link.ts`) is pure and runs inside `runChecks`, the
complete model of the prefix of `run` that precedes its first network call,
so the failure happens before any network access (the last conjunct shows
`runChecks` on a non-debug request is exactly `validateVersion`). -/
theorem classifyVersion_spec (v : List Char) :
    (isVersionTag v = true ↔ VersionShape v) ∧
    (isCommitHash v = true ↔
      (∀ c ∈ v, isHexCharCI c = true) ∧ 7 ≤ v.length ∧ v.length ≤ 40) ∧
    (validateVersion v = .error (invalidVersionMsg v) ↔
      isVersionTag v = false ∧ isCommitHash v = false) ∧
    (∀ p procPlatform, runChecks v p false procPlatform = validateVersion v) ∧
    validateVersion (str "21.1") = .error (invalidVersionMsg (str "21.1")) ∧
    validateVersion (str "v21.1.8") = .error (invalidVersionMsg (str "v21.1.8")) := by
  refine ⟨isVersionTag_iff v, ?_, ?_, ?_, by decide, by decide⟩
  · simp [isCommitHash, List.all_eq_true, and_assoc]
  · unfold validateVersion
    cases h1 : isVersionTag v <;> cases h2 : isCommitHash v <;> simp [h1, h2]
  · intro p procPlatform
    unfold runChecks validateVersion
    cases h : (isVersionTag v || isCommitHash v) <;> simp [h]

/-- C5 counterexample: the normalizer rejects the lower-case tokens `macos`,
`x86` and `aarch64` that the claim says it accepts (the accepted literals
are `macOS`, `X86` and `AArch64`). -/
theorem normalizer_rejects_lowercase_tokens :
    getPlatform (str "macos") (str "linux") = .error (invalidPlatformMsg (str "macos")) ∧
    getArchitecture (str "x86") (str "x64") =
      .error (invalidArchitectureMsg (str "x86")) ∧
    getArchitecture (str "aarch64") (str "x64") =
      .error (invalidArchitectureMsg (str "aarch64")) := by
  refine ⟨?_, ?_, ?_⟩ <;> decide

/-- C5 amended: the platform normalizer accepts exactly the literal tokens
`host`, `linux`, `macOS`, `windows` and the architecture normalizer exactly
`host`, `X86`, `AArch64`, case-sensitively as supplied by the caller; every
other input (for example `Linux`, `solaris`, or the lower-case spellings
`macos`, `x86`, `aarch64`) fails with an error naming the offending value
and the allowed set. -/
theorem normalizer_accepts_exact_tokens (p a procP procA : List Char) :
    (p ∉ [str "host", str "linux", str "macOS", str "windows"] →
      getPlatform p procP = .error (invalidPlatformMsg p)) ∧
    (p = str "host" → getPlatform p procP = determinePlatform procP) ∧
    (p = str "linux" ∨ p = str "macOS" ∨ p = str "windows" →
      getPlatform p procP = .ok p) ∧
    (a ∉ [str "host", str "X86", str "AArch64"] →
      getArchitecture a procA = .error (invalidArchitectureMsg a)) ∧
    (a = str "host" → getArchitecture a procA = determineArchitecture procA) ∧
    (a = str "X86" ∨ a = str "AArch64" → getArchitecture a procA = .ok a) := by
  refine ⟨?_, ?_, ?_, ?_, ?_, ?_⟩
  · intro h
    simp only [List.mem_cons, List.not_mem_nil, or_false, not_or] at h
    unfold getPlatform
    rw [if_pos ⟨h.1, h.2.1, h.2.2.1, h.2.2.2⟩]
  · rintro rfl
    unfold getPlatform
    rw [if_neg (by simp), if_pos rfl]
  · intro h
    have hne : p ≠ str "host" := by
      rcases h with rfl | rfl | rfl <;> decide
    unfold getPlatform
    rw [if_neg (by rcases h with rfl | rfl | rfl <;> simp), if_neg hne]
  · intro h
    simp only [List.mem_cons, List.not_mem_nil, or_false, not_or] at h
    unfold getArchitecture
    rw [if_pos ⟨h.1, h.2.1, h.2.2⟩]
  · rintro rfl
    unfold getArchitecture
    rw [if_neg (by simp), if_pos rfl]
  · intro h
    have hne : a ≠ str "host" := by
      rcases h with rfl | rfl <;> decide
    unfold getArchitecture
    rw [if_neg (by rcases h with rfl | rfl <;> simp), if_neg hne]

/-- Witness for the C5 amended theorem at concrete inputs: `Linux` (wrong
case) and `solaris` are rejected, `linux` and `X86` are accepted. -/
theorem normalizer_accepts_exact_tokens_witness :
    getPlatform (str "Linux") (str "linux") =
      .error (invalidPlatformMsg (str "Linux")) ∧
    getPlatform (str "solaris") (str "linux") =
      .error (invalidPlatformMsg (str "solaris")) ∧
    getPlatform (str "linux") (str "linux") = .ok (str "linux") ∧
    getArchitecture (str "X86") (str "x64") = .ok (str "X86") :=
  ⟨(normalizer_accepts_exact_tokens (str "Linux") (str "X86") (str "linux")
      (str "x64")).1 (by decide),
   (normalizer_accepts_exact_tokens (str "solaris") (str "X86") (str "linux")
      (str "x64")).1 (by decide),
   (normalizer_accepts_exact_tokens (str "linux") (str "X86") (str "linux")
      (str "x64")).2.2.1 (Or.inl rfl),
   (normalizer_accepts_exact_tokens (str "linux") (str "X86") (str "linux")
      (str "x64")).2.2.2.2.2 (Or.inl rfl)⟩

/-- C9: if the caller requests a debug build and the requested platform is
not Windows (not the literal `windows`, and for `host` the running process
is not `win32`), the pure prefix of `run` throws the debug-only-on-Windows
error.  `runChecks` models everything `run` does before its first network
call (`getZstdLink`), so the failure precedes any URL resolution or network
access, and debug builds are only ever resolved for Windows. -/
theorem run_debug_requires_windows (v p : List Char) (d : Bool) (proc : List Char)
    (hd : d = true) (hp : p ≠ str "windows")
    (hh : ¬(p = str "host" ∧ proc = str "win32")) :
    runChecks v p d proc = .error debugOnlyWindowsMsg := by
  subst hd
  unfold runChecks
  have h1 : (p == str "windows") = false := by simp [hp]
  have h2 : (p == str "host" && proc == str "win32") = false := by
    by_cases hph : p = str "host"
    · have : proc ≠ str "win32" := fun hw => hh ⟨hph, hw⟩
      simp [this]
    · simp [hph]
  simp only [h1, h2, Bool.or_self, Bool.true_and, Bool.not_false, if_pos]

/-- Witness for C9 at a concrete non-Windows debug request. -/
theorem run_debug_requires_windows_witness :
    runChecks (str "21.1.8") (str "linux") true (str "linux") =
      .error debugOnlyWindowsMsg :=
  run_debug_requires_windows (str "21.1.8") (str "linux") true (str "linux")
    rfl (by decide) (by decide)

/-! ## Lemmas on first-match scans and case-sensitivity -/

theorem find?_first {p : α → Bool} {l : List α} {a : α} (h : l.find? p = some a) :
    ∃ i : Nat, l.get? i = some a ∧ p a = true ∧
      ∀ j, j < i → ∀ b, l.get? j = some b → p b = false := by
  induction l with
  | nil => simp at h
  | cons x xs ih =>
    by_cases hx : p x
    · rw [List.find?_cons_of_pos _ hx] at h
      obtain rfl : x = a := by injection h
      exact ⟨0, rfl, hx, fun j hj => by omega⟩
    · rw [List.find?_cons_of_neg _ hx] at h
      obtain ⟨i, hi, hp, hj⟩ := ih h
      refine ⟨i + 1, hi, hp, fun j hjlt b hb => ?_⟩
      match j with
      | 0 =>
        obtain rfl : x = b := by injection hb
        simpa using hx
      | j' + 1 => exact hj j' (by omega) b hb

theorem lower_fixed_not_pref {v w : List Char} (hw : lowerStr w = w)
    (hv : lowerStr v ≠ v) : v.isPrefixOf w = false := by
  cases hb : v.isPrefixOf w with
  | false => rfl
  | true =>
    exfalso
    obtain ⟨t, ht⟩ := List.isPrefixOf_iff_prefix.mp hb
    apply hv
    have hmap : lowerStr v ++ lowerStr t = v ++ t := by
      have h2 : lowerStr (v ++ t) = v ++ t := by rw [ht, hw]
      simpa [lowerStr, List.map_append] using h2
    exact (List.append_inj hmap (by simp [lowerStr])).1

/-- C2: `getManifestEntry` of `src/utils/download.ts` returns the first
entry in manifest order satisfying the source predicate (requested version
is a prefix of the stored version; stored platform, architecture, and debug
flag equal the case-normalized requested platform, architecture, and the
requested variant), and when no entry matches it fails with the
no-archive-found error, whose message contains the requested architecture,
platform, and version, together with the debug marker exactly when a debug
variant was requested. -/
theorem getManifestEntry_spec (manifest : List ManifestEntry)
    (version platform architecture : List Char) (debug : Bool) :
    (∀ e, getManifestEntry manifest version platform architecture debug = .ok e →
      ∃ i : Nat, manifest.get? i = some e ∧
        entryMatches version platform architecture debug e = true ∧
        ∀ j, j < i → ∀ b, manifest.get? j = some b →
          entryMatches version platform architecture debug b = false) ∧
    ((∀ e ∈ manifest, entryMatches version platform architecture debug e = false) →
      getManifestEntry manifest version platform architecture debug =
        .error (noArchiveMsg architecture platform debug version)) ∧
    (architecture <:+: noArchiveMsg architecture platform debug version) ∧
    (platform <:+: noArchiveMsg architecture platform debug version) ∧
    (version <:+: noArchiveMsg architecture platform debug version) ∧
    (debug = true → str " (debug)" <:+: noArchiveMsg architecture platform debug version) := by
  refine ⟨?_, ?_, ?_, ?_, ?_, ?_⟩
  · intro e he
    unfold getManifestEntry at he
    rcases hf : manifest.find? (entryMatches version platform architecture debug) with
      _ | a
    · rw [hf] at he; exact absurd he (by simp)
    · rw [hf] at he
      obtain rfl : a = e := by injection he
      exact find?_first hf
  · intro hall
    unfold getManifestEntry
    rw [List.find?_eq_none.mpr (fun x hx => by simp [hall x hx])]
  · exact ⟨str "No ", str " " ++ platform ++ (if debug then str " (debug)" else []) ++
      str " archive found for LLVM " ++ version ++ str ".",
      by simp [noArchiveMsg]⟩
  · exact ⟨str "No " ++ architecture ++ str " ",
      (if debug then str " (debug)" else []) ++ str " archive found for LLVM " ++
        version ++ str ".",
      by simp [noArchiveMsg]⟩
  · exact ⟨str "No " ++ architecture ++ str " " ++ platform ++
      (if debug then str " (debug)" else []) ++ str " archive found for LLVM ",
      str ".", by simp [noArchiveMsg]⟩
  · intro hd
    exact ⟨str "No " ++ architecture ++ str " " ++ platform,
      str " archive found for LLVM " ++ version ++ str ".",
      by simp [noArchiveMsg, hd]⟩

/-- Witness for C2 at a concrete manifest: the second entry is the first
match for a prefix request, and an unmatched request yields the
no-archive-found message. -/
theorem getManifestEntry_spec_witness :
    (∃ i : Nat,
      ([⟨str "x86", str "a1", false, str "u1", str "linux", str "r", str "t",
          str "21.1.8"⟩,
        ⟨str "x86", str "a2", false, str "u2", str "linux", str "r", str "t",
          str "f8cb7987c64dcffb72414a40560055cb717dbf74"⟩] :
        List ManifestEntry).get? i =
        some ⟨str "x86", str "a2", false, str "u2", str "linux", str "r", str "t",
          str "f8cb7987c64dcffb72414a40560055cb717dbf74"⟩ ∧
      entryMatches (str "f8cb798") (str "linux") (str "X86") false
        ⟨str "x86", str "a2", false, str "u2", str "linux", str "r", str "t",
          str "f8cb7987c64dcffb72414a40560055cb717dbf74"⟩ = true ∧
      ∀ j, j < i → ∀ b,
        ([⟨str "x86", str "a1", false, str "u1", str "linux", str "r", str "t",
            str "21.1.8"⟩,
          ⟨str "x86", str "a2", false, str "u2", str "linux", str "r", str "t",
            str "f8cb7987c64dcffb72414a40560055cb717dbf74"⟩] :
          List ManifestEntry).get? j = some b →
        entryMatches (str "f8cb798") (str "linux") (str "X86") false b = false) ∧
    getManifestEntry
      [⟨str "x86", str "a1", false, str "u1", str "linux", str "r", str "t",
          str "21.1.8"⟩]
      (str "f8cb799") (str "linux") (str "X86") false =
      .error (noArchiveMsg (str "X86") (str "linux") false (str "f8cb799")) :=
  ⟨(getManifestEntry_spec
      [⟨str "x86", str "a1", false, str "u1", str "linux", str "r", str "t",
          str "21.1.8"⟩,
        ⟨str "x86", str "a2", false, str "u2", str "linux", str "r", str "t",
          str "f8cb7987c64dcffb72414a40560055cb717dbf74"⟩]
      (str "f8cb798") (str "linux") (str "X86") false).1 _ (by decide),
   (getManifestEntry_spec
      [⟨str "x86", str "a1", false, str "u1", str "linux", str "r", str "t",
          str "21.1.8"⟩]
      (str "f8cb799") (str "linux") (str "X86") false).2.1 (by decide)⟩

/-- C10: the requested version is compared to stored versions by a
case-sensitive prefix test in `getManifestEntry` of
`src/utils/download.ts`, without lower-casing (only platform and
architecture are lower-cased there); hence, when every stored version is
already lower-case, a request that passes commit-hash validation but
contains an upper-case letter matches no entry and raises the
no-archive-found error, while the sibling implementation of
`src/unnamed/part_012`, which lower-cases the request first, resolves the
corresponding entry. -/
theorem getManifestEntry_case_sensitive (manifest : List ManifestEntry)
    (manifestZ : List ManifestEntryZ)
    (v platform architecture procP procA : List Char) (debug : Bool)
    (e : ManifestEntryZ)
    (hlower : ∀ en ∈ manifest, lowerStr en.version = en.version)
    (hup : lowerStr v ≠ v)
    (hhash : isCommitHash v = true)
    (hmem : e ∈ manifestZ)
    (hpref : (lowerStr v).isPrefixOf e.version = true)
    (hplat : getPlatformSpec platform procP = .ok e.platform)
    (harch : getArchitectureSpec architecture procA = .ok e.architecture) :
    validateVersion v = .ok () ∧
    getManifestEntry manifest v platform architecture debug =
      .error (noArchiveMsg architecture platform debug v) ∧
    ∃ e2, getManifestEntryZ manifestZ v platform architecture procP procA = .ok e2 := by
  refine ⟨?_, ?_, ?_⟩
  · simp [validateVersion, hhash]
  · unfold getManifestEntry
    rw [List.find?_eq_none.mpr ?_]
    intro en hen
    simp only [entryMatches, Bool.and_eq_true, beq_iff_eq, not_and]
    intro hv
    rw [lower_fixed_not_pref (hlower en hen) hup] at hv
    exact absurd hv (by simp)
  · have hsome : (manifestZ.find? (fun en =>
        (lowerStr v).isPrefixOf en.version && en.platform == e.platform &&
          en.architecture == e.architecture)).isSome = true := by
      rw [List.find?_isSome]
      exact ⟨e, hmem, by simp [hpref]⟩
    rcases hf : manifestZ.find? (fun en =>
        (lowerStr v).isPrefixOf en.version && en.platform == e.platform &&
          en.architecture == e.architecture) with _ | e2
    · rw [hf] at hsome; simp at hsome
    · exact ⟨e2, by unfold getManifestEntryZ; simp only [hplat, harch, hf]⟩

/-- Witness for C10: a one-entry manifest holding the lower-case hash, a
request for the same hash spelled with upper-case letters. -/
theorem getManifestEntry_case_sensitive_witness :
    validateVersion (str "ABCDEF1") = .ok () ∧
    getManifestEntry
      [⟨str "x86", str "a1", false, str "u1", str "linux", str "r", str "t",
          str "abcdef1234567890abcdef1234567890abcdef12"⟩]
      (str "ABCDEF1") (str "linux") (str "x86") false =
      .error (noArchiveMsg (str "x86") (str "linux") false (str "ABCDEF1")) ∧
    ∃ e2, getManifestEntryZ
      [⟨str "x86", str "a1", str "u1", str "linux", str "r", str "t",
          str "abcdef1234567890abcdef1234567890abcdef12", str "zn", str "zu"⟩]
      (str "ABCDEF1") (str "linux") (str "x86") (str "linux") (str "x64") = .ok e2 :=
  getManifestEntry_case_sensitive
    [⟨str "x86", str "a1", false, str "u1", str "linux", str "r", str "t",
        str "abcdef1234567890abcdef1234567890abcdef12"⟩]
    [⟨str "x86", str "a1", str "u1", str "linux", str "r", str "t",
        str "abcdef1234567890abcdef1234567890abcdef12", str "zn", str "zu"⟩]
    (str "ABCDEF1") (str "linux") (str "x86") (str "linux") (str "x64") false
    ⟨str "x86", str "a1", str "u1", str "linux", str "r", str "t",
        str "abcdef1234567890abcdef1234567890abcdef12", str "zn", str "zu"⟩
    (by decide) (by decide) (by decide) (by decide) (by decide) (by decide)
    (by decide)

/-! ## Lemmas on the matcher machinery -/

theorem toNat_ofNat_lt {n : Nat} (h : n < 0xd800) : (Char.ofNat n).toNat = n := by
  have hv : n.isValidChar := Or.inl h
  simp [Char.ofNat, Char.ofNatAux, Char.toNat, hv]
  try rfl

theorem digit_jsDot {c : Char} (h : isDigitChar c = true) : jsDot c = true := by
  unfold isDigitChar at h
  unfold jsDot
  simp only [Bool.and_eq_true, decide_eq_true_eq] at h ⊢
  omega

theorem hex_jsDot {c : Char} (h : isHexCharCI c = true) : jsDot c = true := by
  unfold isHexCharCI isDigitChar jsToLower at h
  unfold jsDot
  by_cases hc : 65 ≤ c.toNat ∧ c.toNat ≤ 90
  · simp only [Bool.and_eq_true, decide_eq_true_eq] at h ⊢
    omega
  · rw [if_neg hc] at h
    simp only [Bool.or_eq_true, Bool.and_eq_true, decide_eq_true_eq] at h
    simp only [Bool.and_eq_true, decide_eq_true_eq]
    omega

theorem hex_ne_underscore {c : Char} (h : isHexCharCI c = true) : c ≠ '_' := by
  rintro rfl
  revert h
  decide

theorem ciEq_refl (c : Char) : ciEq c c = true := by simp [ciEq]

theorem firstSome_eq_some {f : Nat → Option α} {v : α} {k : Nat} (s n : Nat)
    (hs : s ≤ k) (hk : k < s + n) (hv : f k = some v)
    (hfail : ∀ j, s ≤ j → j < k → f j = none) : firstSome f s n = some v := by
  induction n generalizing s with
  | zero => omega
  | succ m ih =>
    unfold firstSome
    by_cases hsk : s = k
    · subst hsk; rw [hv]
    · rw [hfail s (le_refl s) (by omega)]
      exact ih (s + 1) (by omega) (by omega) (fun j h1 h2 => hfail j (by omega) h2)

theorem firstSome_eq_none {f : Nat → Option α} (s n : Nat)
    (h : ∀ j, s ≤ j → j < s + n → f j = none) : firstSome f s n = none := by
  induction n generalizing s with
  | zero => rfl
  | succ m ih =>
    unfold firstSome
    rw [h s (le_refl s) (by omega)]
    exact ih (s + 1) (fun j h1 h2 => h j (by omega) (by omega))

theorem firstSomeDown_eq_some {f : Nat → Option α} {v : α} {k : Nat} (n : Nat)
    (h1 : 1 ≤ k) (hk : k ≤ n) (hv : f k = some v)
    (hfail : ∀ j, k < j → j ≤ n → f j = none) : firstSomeDown f n = some v := by
  induction n with
  | zero => omega
  | succ m ih =>
    unfold firstSomeDown
    by_cases hkm : k = m + 1
    · subst hkm; rw [hv]
    · rw [hfail (m + 1) (by omega) (le_refl _)]
      exact ih (by omega) (fun j ha hb => hfail j ha (by omega))

theorem scanPos_of_zero {l : List Char} {f : List Char → Option α} {v : α}
    (h : f l = some v) : scanPos l f = some v := by
  unfold scanPos
  exact firstSome_eq_some 0 (l.length + 1) (Nat.zero_le 0) (by omega)
    (by simpa using h) (fun j h1 h2 => by omega)

theorem scanPos_none {l : List Char} {f : List Char → Option α}
    (h : ∀ i, f (l.drop i) = none) : scanPos l f = none := by
  unfold scanPos
  exact firstSome_eq_none 0 (l.length + 1) (fun j _ _ => h j)

theorem stripCI_self_append (p rest : List Char) : stripCI p (p ++ rest) = some rest := by
  induction p with
  | nil => rfl
  | cons c cs ih => simp [stripCI, ciEq_refl, ih]

theorem stripCI_append (p q l : List Char) :
    stripCI (p ++ q) l = (stripCI p l).bind (stripCI q) := by
  induction p generalizing l with
  | nil => simp [stripCI]
  | cons c cs ih =>
    match l with
    | [] => simp [stripCI]
    | x :: xs =>
      simp only [List.cons_append, stripCI, List.append_eq]
      by_cases hx : ciEq x c
      · rw [if_pos hx, if_pos hx, ih]
      · rw [if_neg hx, if_neg hx]; rfl

theorem stripCI_eq_drop {p l r : List Char} (h : stripCI p l = some r) :
    r = l.drop p.length := by
  induction p generalizing l with
  | nil => simpa [stripCI] using h.symm
  | cons c cs ih =>
    match l with
    | [] => simp [stripCI] at h
    | x :: xs =>
      simp only [stripCI] at h
      by_cases hx : ciEq x c
      · rw [if_pos hx] at h
        simpa using ih h
      · rw [if_neg hx] at h; exact absurd h (by simp)

theorem hasCiOccur_false_strip {pat l : List Char} (h : hasCiOccur pat l = false) :
    ∀ i, stripCI pat (l.drop i) = none := by
  induction l with
  | nil =>
    intro i
    unfold hasCiOccur at h
    rw [List.drop_nil]
    rcases hs : stripCI pat [] with _ | r
    · rfl
    · rw [hs] at h; simp at h
  | cons x xs ih =>
    intro i
    unfold hasCiOccur at h
    simp only [Bool.or_eq_false_iff] at h
    match i with
    | 0 =>
      rw [List.drop_zero]
      rcases hs : stripCI pat (x :: xs) with _ | r
      · rfl
      · rw [hs] at h
        simp at h
    | j + 1 => exact ih h.2 j

theorem takeCI_ci_append {p g : List Char} (h : ciStrEq p g = true) (rest : List Char) :
    takeCI p (g ++ rest) = some (g, rest) := by
  induction p generalizing g with
  | nil =>
    match g with
    | [] => rfl
    | _ :: _ => simp [ciStrEq] at h
  | cons c cs ih =>
    match g with
    | [] => simp [ciStrEq] at h
    | x :: xs =>
      simp only [ciStrEq, Bool.and_eq_true] at h
      simp [takeCI, h.1, ih h.2]

theorem takeCI_none_of_head {c : Char} {cs : List Char} {x : Char} {xs : List Char}
    (h : ciEq x c = false) : takeCI (c :: cs) (x :: xs) = none := by
  simp [takeCI, h]

theorem expectChar_underscore_drop_none {l : List Char} (h : ('_' : Char) ∉ l)
    (m : Nat) : expectChar '_' (l.drop m) = none := by
  rcases hd : l.drop m with _ | ⟨c, t⟩
  · rfl
  · have hc : c ∈ l := (List.drop_subset m l) (hd ▸ List.mem_cons_self c t)
    have : c ≠ '_' := fun hce => h (hce ▸ hc)
    simp [expectChar, this]

theorem expect_underscore_fail {g rest : List Char} {n : Nat} (hn : n < g.length)
    (hno : ('_' : Char) ∉ g) : expectChar '_' ((g ++ rest).drop n) = none := by
  rw [List.drop_append_of_le_length (by omega)]
  rcases hd : g.drop n with _ | ⟨c, t⟩
  · have := congrArg List.length hd
    simp at this
    omega
  · have hc : c ∈ g := (List.drop_subset n g) (hd ▸ List.mem_cons_self c t)
    have hne : c ≠ '_' := fun hce => hno (hce ▸ hc)
    simp [expectChar, hne]

theorem drop_append_cons_ge {g : List Char} {c : Char} {rest : List Char} {n : Nat}
    (h : g.length + 1 ≤ n) :
    (g ++ c :: rest).drop n = rest.drop (n - g.length - 1) := by
  have h2 : n = g.length + (n - g.length) := by omega
  rw [h2, List.drop_append]
  obtain ⟨m, hm⟩ : ∃ m, n - g.length = m + 1 := ⟨n - g.length - 1, by omega⟩
  rw [hm, List.drop_succ_cons]
  congr 1
  omega

theorem lazyPlus_eq_some {p : Char → Bool} {l : List Char}
    {k : List Char → List Char → Option α} {g rest : List Char} {v : α}
    (hsplit : l = g ++ rest) (hg : g ≠ []) (hall : g.all p = true)
    (hfail : ∀ n, 1 ≤ n → n < g.length → k (l.take n) (l.drop n) = none)
    (hk : k g rest = some v) : lazyPlus p l k = some v := by
  unfold lazyPlus
  have hlen : g.length ≤ l.length := by
    subst hsplit; simp
  have hgl : 1 ≤ g.length := by
    match g, hg with
    | c :: t, _ => simp
  refine firstSome_eq_some 1 l.length hgl (by omega) ?_ ?_
  · rw [if_pos]
    · rw [hsplit, List.take_left, List.drop_left]
      exact hk
    · exact ⟨hgl, by rw [hsplit, List.take_left]; exact hall⟩
  · intro j h1 h2
    by_cases hc : 1 ≤ j ∧ (l.take j).all p = true
    · rw [if_pos hc]
      exact hfail j h1 h2
    · rw [if_neg hc]

theorem greedyPlus_eq_some {p : Char → Bool} {l : List Char}
    {k : List Char → List Char → Option α} {g rest : List Char} {v : α}
    (hsplit : l = g ++ rest) (hg : g ≠ []) (hall : g.all p = true)
    (hfail : ∀ n, g.length < n → n ≤ l.length → k (l.take n) (l.drop n) = none)
    (hk : k g rest = some v) : greedyPlus p l k = some v := by
  unfold greedyPlus
  have hlen : g.length ≤ l.length := by
    subst hsplit; simp
  have hgl : 1 ≤ g.length := by
    match g, hg with
    | c :: t, _ => simp
  refine firstSomeDown_eq_some l.length hgl hlen ?_ ?_
  · rw [if_pos]
    · rw [hsplit, List.take_left, List.drop_left]
      exact hk
    · rw [hsplit, List.take_left]; exact hall
  · intro j h1 h2
    by_cases hc : (l.take j).all p = true
    · rw [if_pos hc]
      exact hfail j h1 h2
    · rw [if_neg hc]

/-! ## Round-trip lemmas for the asset name template -/

theorem stripCI_none_of_head {c : Char} {cs : List Char} {x : Char} {xs : List Char}
    (h : ciEq x c = false) : stripCI (c :: cs) (x :: xs) = none := by
  simp [stripCI, h]

theorem archAlt_build (arch rest : List Char)
    (harch : arch = str "X86" ∨ arch = str "AArch64") :
    archAlt (arch ++ rest) = some (arch, rest) := by
  rcases harch with rfl | rfl
  · unfold archAlt
    rw [takeCI_ci_append (by decide) rest]
  · unfold archAlt
    have hcons : str "AArch64" ++ rest = 'A' :: (str "Arch64" ++ rest) := by
      have h1 : str "AArch64" = 'A' :: str "Arch64" := by decide
      rw [h1, List.cons_append]
    have hx : takeCI (str "x86") (str "AArch64" ++ rest) = none := by
      have hx2 : str "x86" = 'x' :: str "86" := by decide
      rw [hcons, hx2]
      exact takeCI_none_of_head (by decide)
    rw [hx]
    exact takeCI_ci_append (by decide) rest

theorem archAlt_debug_none (rest : List Char) :
    archAlt (str "debug" ++ rest) = none := by
  unfold archAlt
  have hD : str "debug" ++ rest = 'd' :: (str "ebug" ++ rest) := by
    have h2 : str "debug" = 'd' :: str "ebug" := by decide
    rw [h2, List.cons_append]
  have hx : takeCI (str "x86") (str "debug" ++ rest) = none := by
    have hx2 : str "x86" = 'x' :: str "86" := by decide
    rw [hD, hx2]
    exact takeCI_none_of_head (by decide)
  have ha : takeCI (str "aarch64") (str "debug" ++ rest) = none := by
    have ha2 : str "aarch64" = 'a' :: str "arch64" := by decide
    rw [hD, ha2]
    exact takeCI_none_of_head (by decide)
  rw [hx, ha]

theorem debugDotTail_true_build (debug : Bool) (ext : List Char) :
    debugDotTail true ((if debug then str "_debug" else []) ++ '.' :: ext) =
      some debug := by
  cases debug with
  | true =>
    have hif : (if (true : Bool) then str "_debug" else []) ++ '.' :: ext =
        str "_debug" ++ '.' :: ext := rfl
    rw [hif]
    unfold debugDotTail
    rw [if_pos rfl, stripCI_self_append]
    simp only [expectChar_cons_self]
  | false =>
    have hif : (if (false : Bool) then str "_debug" else []) ++ '.' :: ext =
        '.' :: ext := rfl
    rw [hif]
    unfold debugDotTail
    rw [if_pos rfl]
    have h1 : stripCI (str "_debug") ('.' :: ext) = none := by
      have h2 : str "_debug" = '_' :: str "debug" := by decide
      rw [h2]
      exact stripCI_none_of_head (by decide)
    rw [h1]
    simp only [expectChar_cons_self]

theorem archDebugTail_true_build (arch : List Char) (debug : Bool) (ext : List Char)
    (harch : arch = str "X86" ∨ arch = str "AArch64") :
    archDebugTail true
      (arch ++ ((if debug then str "_debug" else []) ++ '.' :: ext)) =
      some (arch, debug) := by
  unfold archDebugTail
  simp only [archAlt_build arch _ harch, debugDotTail_true_build]

theorem tail2_no_arch (arch : List Char) (debug : Bool) (ext : List Char)
    (harch : arch = str "X86" ∨ arch = str "AArch64")
    (hext : ('_' : Char) ∉ ext) (m : Nat)
    (f : List Char × Bool → β) :
    (expectChar '_'
        ((arch ++ ((if debug then str "_debug" else []) ++ '.' :: ext)).drop m)).bind
      (fun r7 => (archDebugTail true r7).map f) = none := by
  cases debug with
  | false =>
    have hif : (if (false : Bool) then str "_debug" else []) ++ '.' :: ext =
        '.' :: ext := rfl
    rw [hif]
    rw [expectChar_underscore_drop_none]
    · rfl
    · intro hmem
      rcases List.mem_append.mp hmem with h | h
      · rcases harch with rfl | rfl <;> revert h <;> decide
      · rcases List.mem_cons.mp h with h2 | h2
        · exact absurd h2 (by decide)
        · exact hext h2
  | true =>
    have hif : (if (true : Bool) then str "_debug" else []) ++ '.' :: ext =
        '_' :: (str "debug" ++ '.' :: ext) := by
      have h2 : str "_debug" = '_' :: str "debug" := by decide
      show str "_debug" ++ '.' :: ext = _
      rw [h2, List.cons_append]
    rw [hif]
    by_cases hm : m < arch.length
    · rw [expect_underscore_fail hm ?_]
      · rfl
      · intro hmem
        rcases harch with rfl | rfl <;> revert hmem <;> decide
    · by_cases hm2 : m = arch.length
      · subst hm2
        rw [List.drop_left, expectChar_cons_self]
        simp only [Option.some_bind]
        unfold archDebugTail
        rw [archAlt_debug_none ('.' :: ext)]
        rfl
      · rw [drop_append_cons_ge (by omega)]
        rw [expectChar_underscore_drop_none]
        · rfl
        · intro hmem
          rcases List.mem_append.mp hmem with h | h
          · exact absurd h (by decide)
          · rcases List.mem_cons.mp h with h2 | h2
            · exact absurd h2 (by decide)
            · exact hext h2

theorem tmplMatch_build (v pl os arch : List Char) (debug : Bool) (ext : List Char)
    (hv : v ≠ []) (hvu : ('_' : Char) ∉ v) (hvd : v.all jsDot = true)
    (hpl : pl ≠ []) (hplu : ('_' : Char) ∉ pl) (hpld : pl.all jsDot = true)
    (hos : os ≠ []) (hosd : os.all jsDot = true)
    (hextu : ('_' : Char) ∉ ext)
    (harch : arch = str "X86" ∨ arch = str "AArch64") :
    tmplMatch (str "llvm-mlir_") true (buildAssetName v pl os arch debug ext) =
      some (pl, arch, debug) := by
  unfold tmplMatch
  apply scanPos_of_zero
  unfold buildAssetName
  rw [stripCI_self_append]
  simp only [Option.some_bind]
  unfold tmplTail
  apply lazyPlus_eq_some rfl hv hvd
  · intro n h1 h2
    try simp only []
    rw [expect_underscore_fail h2 hvu]
    rfl
  · try simp only []
    rw [expectChar_cons_self]
    simp only [Option.some_bind]
    apply lazyPlus_eq_some rfl hpl hpld
    · intro n h1 h2
      try simp only []
      rw [expect_underscore_fail h2 hplu]
      rfl
    · try simp only []
      rw [expectChar_cons_self]
      simp only [Option.some_bind]
      apply greedyPlus_eq_some rfl hos hosd
      · intro n h1 h2
        try simp only []
        rw [drop_append_cons_ge (by omega)]
        exact tail2_no_arch arch debug ext harch hextu _ _
      · try simp only []
        rw [expectChar_cons_self]
        simp only [Option.some_bind]
        rw [archDebugTail_true_build arch debug ext harch]
        rfl

theorem versionTagScan_build (d1 d2 d3 rest : List Char)
    (hd1 : d1 ≠ []) (h1d : d1.all isDigitChar = true)
    (hd2 : d2 ≠ []) (h2d : d2.all isDigitChar = true)
    (hd3 : d3 ≠ []) (h3d : d3.all isDigitChar = true) :
    versionTagScan (str "llvm-mlir_" ++
        ((str "llvmorg-" ++ (d1 ++ '.' :: (d2 ++ '.' :: d3))) ++ '_' :: rest)) =
      some (d1 ++ '.' :: (d2 ++ '.' :: d3)) := by
  unfold versionTagScan
  apply scanPos_of_zero
  unfold versionTagCapture
  have hsplit : str "llvm-mlir_" ++
      ((str "llvmorg-" ++ (d1 ++ '.' :: (d2 ++ '.' :: d3))) ++ '_' :: rest) =
      str "llvm-mlir_llvmorg-" ++
        (d1 ++ '.' :: (d2 ++ '.' :: (d3 ++ '_' :: rest))) := by
    have hlit : str "llvm-mlir_llvmorg-" = str "llvm-mlir_" ++ str "llvmorg-" := by
      decide
    rw [hlit]
    simp [List.append_assoc]
  rw [hsplit, stripCI_self_append]
  simp only [Option.some_bind]
  rw [takeDigits_append h1d hd1 (by decide)]
  simp only [Option.some_bind, expectChar_cons_self]
  rw [takeDigits_append h2d hd2 (by decide)]
  simp only [Option.some_bind, expectChar_cons_self]
  rw [takeDigits_append h3d hd3 (by decide)]
  simp only [Option.some_bind, expectChar_cons_self]
  rfl

theorem versionTagScan_none {name : List Char}
    (hno : hasCiOccur (str "llvmorg-") name = false) :
    versionTagScan name = none := by
  unfold versionTagScan
  apply scanPos_none
  intro i
  unfold versionTagCapture
  have hlit : str "llvm-mlir_llvmorg-" = str "llvm-mlir_" ++ str "llvmorg-" := by
    decide
  rw [hlit, stripCI_append]
  rcases hs : stripCI (str "llvm-mlir_") (name.drop i) with _ | r
  · rfl
  · have hr : r = (name.drop i).drop (str "llvm-mlir_").length := stripCI_eq_drop hs
    have hlen : (str "llvm-mlir_").length = 10 := by decide
    rw [hlen] at hr
    rw [List.drop_drop] at hr
    have hstrip : stripCI (str "llvmorg-") r = none := by
      rw [hr]
      exact hasCiOccur_false_strip hno (i + 10)
    simp [hstrip]

theorem hashScan_build (vhash rest : List Char)
    (hh : vhash.all isHexCharCI = true) (h7 : 7 ≤ vhash.length)
    (h40 : vhash.length ≤ 40) :
    hashScan (str "llvm-mlir_" ++ (vhash ++ '_' :: rest)) = some vhash := by
  unfold hashScan
  apply scanPos_of_zero
  unfold hashCapture
  rw [stripCI_self_append]
  simp only [Option.some_bind]
  have hlen : vhash.length ≤ (vhash ++ '_' :: rest).length := by simp
  apply firstSomeDown_eq_some (k := vhash.length) _ (by omega) (by omega)
  · rw [if_pos]
    · rw [List.drop_left, expectChar_cons_self, List.take_left]
      rfl
    · refine ⟨h7, ?_, ?_⟩ <;> rw [List.take_left]
      · exact hh
  · intro j hj1 hj2
    rw [if_neg]
    intro hcond
    obtain ⟨hc7, hclen, hcall⟩ := hcond
    have hju : ('_' : Char) ∈ (vhash ++ '_' :: rest).take j := by
      have hj3 : j = vhash.length + (j - vhash.length) := by omega
      rw [hj3, List.take_append]
      obtain ⟨m, hm⟩ : ∃ m, j - vhash.length = m + 1 := ⟨j - vhash.length - 1, by omega⟩
      rw [hm, List.take_succ_cons]
      exact List.mem_append.mpr (Or.inr (List.mem_cons_self _ _))
    have := List.all_eq_true.mp hcall _ hju
    exact absurd this (by decide)

theorem underscore_not_mem_digits {d : List Char} (h : d.all isDigitChar = true) :
    ('_' : Char) ∉ d :=
  fun hm => absurd (List.all_eq_true.mp h _ hm) (by decide)

theorem jsDot_all_digits {d : List Char} (h : d.all isDigitChar = true) :
    d.all jsDot = true :=
  List.all_eq_true.mpr (fun c hc => digit_jsDot (List.all_eq_true.mp h c hc))

theorem jsDot_all_hex {d : List Char} (h : d.all isHexCharCI = true) :
    d.all jsDot = true :=
  List.all_eq_true.mpr (fun c hc => hex_jsDot (List.all_eq_true.mp h c hc))

/-- C8: for every well-formed synthetic asset name built from the template
`llvm-mlir_{versionToken}_{platformLabel}_{osLabel}_{archToken}[_debug].{ext}`,
with the version token either `llvmorg-` followed by a dotted three-part
numeric version or a commit hash of 7 to 40 hexadecimal characters, parsing
the name with `getPlatformFromAsset` recovers exactly the platform label,
the architecture token, and the debug flag used to build it, and
`getVersionFromAsset` recovers exactly the version (the numeric part for a
release, the hash itself for a commit build).  Well-formedness: the
platform label is nonempty and contains no underscore, the OS label is
nonempty, the extension contains no underscore, the architecture token is
one of the two canonical tokens, labels contain no line terminators, and a
hash-versioned name contains no spurious occurrence of `llvmorg-`. -/
theorem assetName_roundtrip
    (pl os ext d1 d2 d3 vhash arch : List Char) (debug : Bool)
    (hpl : pl ≠ []) (hplu : ('_' : Char) ∉ pl) (hpld : pl.all jsDot = true)
    (hos : os ≠ []) (hosd : os.all jsDot = true)
    (hextu : ('_' : Char) ∉ ext)
    (harch : arch = str "X86" ∨ arch = str "AArch64")
    (hd1 : d1 ≠ []) (h1d : d1.all isDigitChar = true)
    (hd2 : d2 ≠ []) (h2d : d2.all isDigitChar = true)
    (hd3 : d3 ≠ []) (h3d : d3.all isDigitChar = true)
    (hh : vhash.all isHexCharCI = true) (h7 : 7 ≤ vhash.length)
    (h40 : vhash.length ≤ 40)
    (hno : hasCiOccur (str "llvmorg-")
      (buildAssetName vhash pl os arch debug ext) = false) :
    (getPlatformFromAsset
        (buildAssetName (str "llvmorg-" ++ (d1 ++ '.' :: (d2 ++ '.' :: d3)))
          pl os arch debug ext) = .ok (pl, arch, debug) ∧
      getVersionFromAsset
        (buildAssetName (str "llvmorg-" ++ (d1 ++ '.' :: (d2 ++ '.' :: d3)))
          pl os arch debug ext) = .ok (d1 ++ '.' :: (d2 ++ '.' :: d3))) ∧
    (getPlatformFromAsset (buildAssetName vhash pl os arch debug ext) =
        .ok (pl, arch, debug) ∧
      getVersionFromAsset (buildAssetName vhash pl os arch debug ext) =
        .ok vhash) := by
  have hvu : ('_' : Char) ∉ str "llvmorg-" ++ (d1 ++ '.' :: (d2 ++ '.' :: d3)) := by
    intro hm
    rcases List.mem_append.mp hm with h | h
    · exact absurd h (by decide)
    · rcases List.mem_append.mp h with h | h
      · exact underscore_not_mem_digits h1d h
      · rcases List.mem_cons.mp h with h | h
        · exact absurd h (by decide)
        · rcases List.mem_append.mp h with h | h
          · exact underscore_not_mem_digits h2d h
          · rcases List.mem_cons.mp h with h | h
            · exact absurd h (by decide)
            · exact underscore_not_mem_digits h3d h
  have hvd : (str "llvmorg-" ++ (d1 ++ '.' :: (d2 ++ '.' :: d3))).all jsDot = true := by
    simp only [List.all_append, List.all_cons, Bool.and_eq_true]
    refine ⟨by decide, jsDot_all_digits h1d, ?_⟩
    refine ⟨by decide, jsDot_all_digits h2d, by decide, jsDot_all_digits h3d⟩
  have hvne : str "llvmorg-" ++ (d1 ++ '.' :: (d2 ++ '.' :: d3)) ≠ [] := by simp
  have hhne : vhash ≠ [] := by
    intro h
    rw [h] at h7
    simp at h7
  have hhu : ('_' : Char) ∉ vhash :=
    fun hm => hex_ne_underscore (List.all_eq_true.mp hh _ hm) rfl
  refine ⟨⟨?_, ?_⟩, ?_, ?_⟩
  · unfold getPlatformFromAsset
    rw [tmplMatch_build _ pl os arch debug ext hvne hvu hvd hpl hplu hpld hos hosd
      hextu harch]
  · unfold getVersionFromAsset
    have hts : versionTagScan
        (buildAssetName (str "llvmorg-" ++ (d1 ++ '.' :: (d2 ++ '.' :: d3)))
          pl os arch debug ext) = some (d1 ++ '.' :: (d2 ++ '.' :: d3)) := by
      unfold buildAssetName
      exact versionTagScan_build d1 d2 d3 _ hd1 h1d hd2 h2d hd3 h3d
    rw [hts]
  · unfold getPlatformFromAsset
    rw [tmplMatch_build vhash pl os arch debug ext hhne hhu (jsDot_all_hex hh)
      hpl hplu hpld hos hosd hextu harch]
  · unfold getVersionFromAsset
    rw [versionTagScan_none hno]
    have hsb : hashScan (buildAssetName vhash pl os arch debug ext) = some vhash := by
      unfold buildAssetName
      exact hashScan_build vhash _ hh h7 h40
    rw [hsb]

/-- Witness for C8 at concrete template instances over the labels
`macos`, `macos-14`, `AArch64`, extension `tar.zst`: the release version
`21.1.8` and the commit hash `f8cb798`. -/
theorem assetName_roundtrip_witness :
    (getPlatformFromAsset
        (buildAssetName (str "llvmorg-" ++ (str "21" ++ '.' :: (str "1" ++ '.' :: str "8")))
          (str "macos") (str "macos-14") (str "AArch64") false (str "tar.zst")) =
        .ok (str "macos", str "AArch64", false) ∧
      getVersionFromAsset
        (buildAssetName (str "llvmorg-" ++ (str "21" ++ '.' :: (str "1" ++ '.' :: str "8")))
          (str "macos") (str "macos-14") (str "AArch64") false (str "tar.zst")) =
        .ok (str "21" ++ '.' :: (str "1" ++ '.' :: str "8"))) ∧
    (getPlatformFromAsset
        (buildAssetName (str "f8cb798") (str "macos") (str "macos-14")
          (str "AArch64") false (str "tar.zst")) =
        .ok (str "macos", str "AArch64", false) ∧
      getVersionFromAsset
        (buildAssetName (str "f8cb798") (str "macos") (str "macos-14")
          (str "AArch64") false (str "tar.zst")) = .ok (str "f8cb798")) :=
  assetName_roundtrip (str "macos") (str "macos-14") (str "tar.zst")
    (str "21") (str "1") (str "8") (str "f8cb798") (str "AArch64") false
    (by decide) (by decide) (by decide) (by decide) (by decide) (by decide)
    (Or.inr rfl) (by decide) (by decide) (by decide) (by decide) (by decide)
    (by decide) (by decide) (by decide) (by decide) (by decide)

/-! ## Rebuild behaviour: duplicate keys and parse failures -/

theorem insertCmp_perm (cmp : α → α → Ordering) (x : α) (l : List α) :
    (insertCmp cmp x l).Perm (x :: l) := by
  induction l with
  | nil => exact List.Perm.refl _
  | cons y ys ih =>
    unfold insertCmp
    by_cases h : cmp x y = .gt
    · rw [if_pos h]
      exact (ih.cons y).trans (List.Perm.swap x y ys)
    · rw [if_neg h]

theorem sortCmp_perm (cmp : α → α → Ordering) (l : List α) :
    (sortCmp cmp l).Perm l := by
  induction l with
  | nil => exact List.Perm.refl _
  | cons x xs ih =>
    exact (insertCmp_perm cmp x (sortCmp cmp xs)).trans (ih.cons x)

theorem scanAssets_length {release : Release} {as : List ReleaseAsset}
    {l : List ManifestEntry} (h : scanAssets release as = .ok l) :
    l.length =
      (as.filter (fun a => (str "llvm-mlir").isPrefixOf a.name)).length := by
  induction as generalizing l with
  | nil =>
    simp only [scanAssets, Except.ok.injEq] at h
    simp [← h]
  | cons a as ih =>
    unfold scanAssets at h
    by_cases hp : (str "llvm-mlir").isPrefixOf a.name = true
    · rw [if_pos hp] at h
      rcases hpe : parseAssetEntry release a with e | entry
      · rw [hpe] at h; exact absurd h (by simp)
      · rw [hpe] at h
        rcases hre : scanAssets release as with e | rest
        · rw [hre] at h; exact absurd h (by simp)
        · rw [hre] at h
          obtain rfl : entry :: rest = l := by injection h
          simp [List.filter_cons, hp, ih hre]
    · rw [if_neg hp] at h
      have hb : ((str "llvm-mlir").isPrefixOf a.name) = false := by
        revert hp
        cases (str "llvm-mlir").isPrefixOf a.name <;> simp
      simp [List.filter_cons, hb, ih h]

theorem scanReleases_length {rs : List Release} {l : List ManifestEntry}
    (h : scanReleases rs = .ok l) :
    l.length = (rs.map (fun r =>
      (r.assets.filter (fun a => (str "llvm-mlir").isPrefixOf a.name)).length)).sum := by
  induction rs generalizing l with
  | nil =>
    simp only [scanReleases, Except.ok.injEq] at h
    simp [← h]
  | cons r rs ih =>
    unfold scanReleases at h
    rcases ha : scanAssets r r.assets with e | first
    · rw [ha] at h; exact absurd h (by simp)
    · rw [ha] at h
      rcases hr : scanReleases rs with e | rest
      · rw [hr] at h; exact absurd h (by simp)
      · rw [hr] at h
        obtain rfl : first ++ rest = l := by injection h
        simp [scanAssets_length ha, ih hr]

/-- C3 counterexample: two releases of the unchanged shape each carry an
asset with the same (platform, architecture, version, variant) key, and the
rebuilt manifest keeps both entries; the persisted store therefore does
contain two entries with identical keys. -/
theorem updateManifest_duplicate_keys :
    updateManifestPure [cxRelNewer, cxRelOlder] =
      .ok [cxEntryNewer, cxEntryOlder] ∧
    cxEntryNewer.platform = cxEntryOlder.platform ∧
    cxEntryNewer.architecture = cxEntryOlder.architecture ∧
    cxEntryNewer.version = cxEntryOlder.version ∧
    cxEntryNewer.debug = cxEntryOlder.debug ∧
    cxEntryNewer ≠ cxEntryOlder := by
  refine ⟨?_, ?_, ?_, ?_, ?_, ?_⟩ <;> decide

/-- C3 amended: `updateManifest` of `src/utils/manifest.ts` performs no
per-key deduplication at all: whenever the scan succeeds, the persisted
manifest is a permutation (by the final sort) of one entry per asset whose
name starts with `llvm-mlir`, taken from every release; when several
releases, or several assets of one release, carry assets with the same
(platform, architecture, version, variant) key, one entry per asset is kept
and duplicate keys persist.  (The newest implementation,
`src/unnamed/part_011`, deduplicates only at whole-version granularity:
releases are processed newest first and an already-recorded version is
skipped, so a version is served from its newest release; within that
release duplicate keys are still possible.) -/
theorem updateManifest_one_entry_per_asset (rs : List Release)
    (m : List ManifestEntry) (h : updateManifestPure rs = .ok m) :
    ∃ raw, scanReleases rs = .ok raw ∧ m.Perm raw ∧
      raw.length = (rs.map (fun r =>
        (r.assets.filter (fun a =>
          (str "llvm-mlir").isPrefixOf a.name)).length)).sum := by
  unfold updateManifestPure at h
  rcases hs : scanReleases rs with e | raw
  · rw [hs] at h; exact absurd h (by simp)
  · rw [hs] at h
    obtain rfl : sortCmp entryCmp raw = m := by injection h
    exact ⟨raw, rfl, sortCmp_perm _ _, scanReleases_length hs⟩

/-- Witness for the C3 amended theorem at the duplicate-key input. -/
theorem updateManifest_one_entry_per_asset_witness :
    ∃ raw, scanReleases [cxRelNewer, cxRelOlder] = .ok raw ∧
      ([cxEntryNewer, cxEntryOlder] : List ManifestEntry).Perm raw ∧
      raw.length = ([cxRelNewer, cxRelOlder].map (fun r =>
        (r.assets.filter (fun a =>
          (str "llvm-mlir").isPrefixOf a.name)).length)).sum :=
  updateManifest_one_entry_per_asset [cxRelNewer, cxRelOlder]
    [cxEntryNewer, cxEntryOlder] (by decide)

/-- C6 counterexample: an asset whose name starts with `llvm-mlir` but fits
neither pattern makes `updateManifest` of `src/utils/manifest.ts` abort the
whole rebuild with the could-not-extract-platform error, while the newest
implementation skips it silently. -/
theorem updateManifest_aborts_on_unparseable :
    (str "llvm-mlir").isPrefixOf (str "llvm-mlir-notes.txt") = true ∧
    updateManifestPure [cxRelBad] =
      .error (str "Could not extract platform from asset name: llvm-mlir-notes.txt") ∧
    updateManifest011 [cxRelBad] = ([], []) := by
  refine ⟨?_, ?_, ?_⟩ <;> decide

theorem scanAssets_ok_iff (release : Release) (as : List ReleaseAsset) :
    (∃ l, scanAssets release as = .ok l) ↔
      ∀ a ∈ as, (str "llvm-mlir").isPrefixOf a.name = true →
        ∃ e, parseAssetEntry release a = .ok e := by
  induction as with
  | nil => simp [scanAssets]
  | cons a as ih =>
    constructor
    · rintro ⟨l, hl⟩ b hb hpb
      unfold scanAssets at hl
      by_cases hp : (str "llvm-mlir").isPrefixOf a.name = true
      · rw [if_pos hp] at hl
        rcases hpe : parseAssetEntry release a with e | entry
        · rw [hpe] at hl; exact absurd hl (by simp)
        · rw [hpe] at hl
          rcases hre : scanAssets release as with e | rest
          · rw [hre] at hl; exact absurd hl (by simp)
          · rcases List.mem_cons.mp hb with rfl | hb2
            · exact ⟨entry, hpe⟩
            · exact (ih.mp ⟨rest, hre⟩) b hb2 hpb
      · rw [if_neg hp] at hl
        rcases List.mem_cons.mp hb with rfl | hb2
        · exact absurd hpb hp
        · exact (ih.mp ⟨l, hl⟩) b hb2 hpb
    · intro hall
      unfold scanAssets
      by_cases hp : (str "llvm-mlir").isPrefixOf a.name = true
      · rw [if_pos hp]
        obtain ⟨e, he⟩ := hall a (List.mem_cons_self a as) hp
        rw [he]
        obtain ⟨l, hl⟩ := ih.mpr
          (fun b hb hpb => hall b (List.mem_cons_of_mem a hb) hpb)
        rw [hl]
        exact ⟨e :: l, rfl⟩
      · rw [if_neg hp]
        exact ih.mpr (fun b hb hpb => hall b (List.mem_cons_of_mem a hb) hpb)

theorem scanReleases_ok_iff (rs : List Release) :
    (∃ l, scanReleases rs = .ok l) ↔
      ∀ r ∈ rs, ∀ a ∈ r.assets, (str "llvm-mlir").isPrefixOf a.name = true →
        ∃ e, parseAssetEntry r a = .ok e := by
  induction rs with
  | nil => simp [scanReleases]
  | cons r rs ih =>
    constructor
    · rintro ⟨l, hl⟩ r2 hr2 a ha hpa
      unfold scanReleases at hl
      rcases hsa : scanAssets r r.assets with e | first
      · rw [hsa] at hl; exact absurd hl (by simp)
      · rw [hsa] at hl
        rcases hsr : scanReleases rs with e | rest
        · rw [hsr] at hl; exact absurd hl (by simp)
        · rcases List.mem_cons.mp hr2 with rfl | hr3
          · exact (scanAssets_ok_iff r2 r2.assets).mp ⟨first, hsa⟩ a ha hpa
          · exact ih.mp ⟨rest, hsr⟩ r2 hr3 a ha hpa
    · intro hall
      unfold scanReleases
      obtain ⟨first, hsa⟩ := (scanAssets_ok_iff r r.assets).mpr
        (hall r (List.mem_cons_self r rs))
      rw [hsa]
      obtain ⟨rest, hsr⟩ := ih.mpr
        (fun r2 hr2 => hall r2 (List.mem_cons_of_mem r hr2))
      rw [hsr]
      exact ⟨first ++ rest, rfl⟩

/-- C6 amended: in `updateManifest` of `src/utils/manifest.ts` only assets
whose names do not start with `llvm-mlir` are skipped silently; the rebuild
succeeds exactly when every `llvm-mlir`-prefixed asset parses, so one
malformed primary asset aborts the whole rebuild.  The newest
implementation (`src/unnamed/part_011`) behaves as the claim states: an
asset whose name does not match the primary pattern contributes nothing and
no warning, and a matching asset whose version can not be extracted is
excluded with a logged warning while the scan continues (the per-asset step
is a total function, so no asset can abort it). -/
theorem updateManifest_parse_failure_behavior (rs : List Release) :
    ((∃ m, updateManifestPure rs = .ok m) ↔
      ∀ r ∈ rs, ∀ a ∈ r.assets, (str "llvm-mlir").isPrefixOf a.name = true →
        ∃ e, parseAssetEntry r a = .ok e) ∧
    (∀ release st versionVar a,
      tmplMatch (str "llvm-mlir_") false a.name = none →
      llvmAssetStep release st versionVar a = (st, versionVar)) ∧
    (∀ release st versionVar a g msg,
      tmplMatch (str "llvm-mlir_") false a.name = some g →
      getVersionFromAssetName011 a.name = .error msg →
      llvmAssetStep release st versionVar a =
        ({ st with warnings := st.warnings ++
            [str "Skipping asset " ++ a.name ++ str ": " ++ msg] }, versionVar)) := by
  refine ⟨?_, ?_, ?_⟩
  · constructor
    · rintro ⟨m, hm⟩
      unfold updateManifestPure at hm
      rcases hs : scanReleases rs with e | raw
      · rw [hs] at hm; exact absurd hm (by simp)
      · exact (scanReleases_ok_iff rs).mp ⟨raw, hs⟩
    · intro hall
      obtain ⟨raw, hs⟩ := (scanReleases_ok_iff rs).mpr hall
      exact ⟨sortCmp entryCmp raw, by unfold updateManifestPure; rw [hs]⟩
  · intro release st versionVar a hnone
    unfold llvmAssetStep
    rw [hnone]
  · intro release st versionVar a g msg hsome herr
    unfold llvmAssetStep
    rw [hsome, herr]

/-- Witness for the C6 amended theorem: the abort characterization at the
malformed release, the silent skip of a non-matching name, and the
warning-and-continue step on a matching asset whose version token `beta`
can not be extracted. -/
theorem updateManifest_parse_failure_behavior_witness :
    (¬ ∃ m, updateManifestPure [cxRelBad] = .ok m) ∧
    llvmAssetStep cxRelBad ⟨[], [], [], []⟩ none
        ⟨str "llvm-mlir-notes.txt", str "u"⟩ =
      (⟨[], [], [], []⟩, none) ∧
    llvmAssetStep cxRelNewer ⟨[], [], [], []⟩ none cxBetaAsset =
      (⟨[], [], [],
        [str "Skipping asset " ++ cxBetaAsset.name ++ str ": " ++
          (str "Could not extract version from asset name: " ++ cxBetaAsset.name)]⟩,
        none) := by
  refine ⟨?_, ?_, ?_⟩
  · intro hex
    have h1 := (updateManifest_parse_failure_behavior [cxRelBad]).1.mp hex
    have h2 := h1 cxRelBad (by decide)
      ⟨str "llvm-mlir-notes.txt",
        str "https://e/releases/download/2025.01.03/llvm-mlir-notes.txt"⟩
      (by decide) (by decide)
    obtain ⟨e, he⟩ := h2
    have hpe : parseAssetEntry cxRelBad
        ⟨str "llvm-mlir-notes.txt",
          str "https://e/releases/download/2025.01.03/llvm-mlir-notes.txt"⟩ =
        .error (str "Could not extract platform from asset name: llvm-mlir-notes.txt") := by
      decide
    rw [hpe] at he
    exact absurd he (by simp)
  · exact (updateManifest_parse_failure_behavior []).2.1 cxRelBad
      ⟨[], [], [], []⟩ none ⟨str "llvm-mlir-notes.txt", str "u"⟩ (by decide)
  · exact (updateManifest_parse_failure_behavior []).2.2 cxRelNewer
      ⟨[], [], [], []⟩ none cxBetaAsset (str "linux", str "X86", false)
      (str "Could not extract version from asset name: " ++ cxBetaAsset.name)
      (by decide) (by decide)

/-- C1 (evaluation of the code at the failing input): the release recorded
in the matched manifest entry carries a matching companion asset;
`getZstdUrl` of `src/utils/download.ts` returns it, while `getZstdUrl` of
`src/utils/manifest.ts` discards that result, unconditionally searches the
latest release (which has no companion), and throws the no-companion-found
error. -/
theorem getZstdUrl_manifest_ignores_entry_release :
    getZstdAsset cxRelWithZstd.assets (str "linux") (str "X86") =
      some cxZstdAsset ∧
    getZstdUrl_download cxSrc cxManifest (str "abcdef11") (str "linux")
        (str "X86") (str "linux") (str "x64") =
      .ok (str "https://e/zstd.tar.gz",
        str "zstd-1.5.6_linux_ubuntu-24.04_x86.tar.gz") ∧
    getZstdUrl_manifest cxSrc cxManifest (str "abcdef11") (str "linux")
        (str "X86") (str "linux") (str "x64") =
      .error (noCompanionMsg (str "X86") (str "linux")) := by
  refine ⟨?_, ?_, ?_⟩ <;> decide

/-! ## Order theory of the manifest comparators -/

theorem char_toNat_inj {a b : Char} (h : a.toNat = b.toNat) : a = b :=
  Char.eq_of_val_eq (UInt32.toNat.inj h)

theorem charCmp_eq_iff {a b : Char} : charCmp a b = .eq ↔ a = b := by
  unfold charCmp
  constructor
  · intro h
    by_cases h1 : a.toNat < b.toNat
    · rw [if_pos h1] at h; exact absurd h (by simp)
    · rw [if_neg h1] at h
      by_cases h2 : b.toNat < a.toNat
      · rw [if_pos h2] at h; exact absurd h (by simp)
      · rw [if_neg h2] at h
        exact char_toNat_inj (by omega)
  · rintro rfl
    rw [if_neg (by omega), if_neg (by omega)]

theorem charCmp_lt_iff {a b : Char} : charCmp a b = .lt ↔ a.toNat < b.toNat := by
  unfold charCmp
  by_cases h1 : a.toNat < b.toNat
  · rw [if_pos h1]; simp [h1]
  · rw [if_neg h1]
    by_cases h2 : b.toNat < a.toNat
    · rw [if_pos h2]; simp [h1]
    · rw [if_neg h2]; simp [h1]

theorem charCmp_swap (a b : Char) : charCmp b a = (charCmp a b).swap := by
  unfold charCmp
  by_cases h1 : a.toNat < b.toNat
  · rw [if_neg (by omega), if_pos h1, if_pos h1]; rfl
  · by_cases h2 : b.toNat < a.toNat
    · rw [if_pos h2, if_neg h1, if_pos h2]; rfl
    · rw [if_neg h2, if_neg h1, if_neg h1, if_neg h2]; rfl

theorem lexCmp_swap (a b : List Char) : lexCmp b a = (lexCmp a b).swap := by
  induction a generalizing b with
  | nil => cases b <;> rfl
  | cons x xs ih =>
    cases b with
    | nil => rfl
    | cons y ys =>
      show (match charCmp y x with | .eq => lexCmp ys xs | o => o) = _
      rw [charCmp_swap x y]
      rcases hc : charCmp x y with _ | _ | _ <;>
        simp [lexCmp, hc, ih ys, Ordering.swap]

theorem lexCmp_eq_iff {a b : List Char} : lexCmp a b = .eq ↔ a = b := by
  induction a generalizing b with
  | nil => cases b <;> simp [lexCmp]
  | cons x xs ih =>
    cases b with
    | nil => simp [lexCmp]
    | cons y ys =>
      show (match charCmp x y with | .eq => lexCmp xs ys | o => o) = .eq ↔ _
      rcases hc : charCmp x y with _ | _ | _
      · constructor
        · intro h; exact absurd h (by simp)
        · intro h
          injection h with h1 h2
          rw [h1] at hc
          rw [charCmp_eq_iff.mpr rfl] at hc
          exact absurd hc (by decide)
      · have hxy : x = y := charCmp_eq_iff.mp hc
        subst hxy
        rw [ih]
        simp
      · constructor
        · intro h; exact absurd h (by simp)
        · intro h
          injection h with h1 h2
          rw [h1] at hc
          rw [charCmp_eq_iff.mpr rfl] at hc
          exact absurd hc (by decide)

theorem lexCmp_lt_trans {a b c : List Char} (h1 : lexCmp a b = .lt)
    (h2 : lexCmp b c = .lt) : lexCmp a c = .lt := by
  induction a generalizing b c with
  | nil =>
    cases c with
    | nil =>
      cases b with
      | nil => exact absurd h1 (by simp [lexCmp])
      | cons y ys => exact absurd h2 (by simp [lexCmp])
    | cons z zs => rfl
  | cons x xs ih =>
    cases b with
    | nil => exact absurd h1 (by simp [lexCmp])
    | cons y ys =>
      cases c with
      | nil => exact absurd h2 (by simp [lexCmp])
      | cons z zs =>
        revert h1 h2
        show (match charCmp x y with | .eq => lexCmp xs ys | o => o) = .lt →
          (match charCmp y z with | .eq => lexCmp ys zs | o => o) = .lt →
          (match charCmp x z with | .eq => lexCmp xs zs | o => o) = .lt
        rcases hxy : charCmp x y with _ | _ | _ <;>
          rcases hyz : charCmp y z with _ | _ | _ <;> intro h1 h2
        · have hxz : charCmp x z = .lt := by
            rw [charCmp_lt_iff] at hxy hyz ⊢
            omega
          rw [hxz]
        · have hyz2 : y = z := charCmp_eq_iff.mp hyz
          subst hyz2
          rw [hxy]
        · exact absurd h2 (by simp [lexCmp])
        · have hxy2 : x = y := charCmp_eq_iff.mp hxy
          subst hxy2
          rw [hyz]
        · have hxy2 : x = y := charCmp_eq_iff.mp hxy
          subst hxy2
          have hyz2 : x = z := charCmp_eq_iff.mp hyz
          subst hyz2
          rw [charCmp_eq_iff.mpr rfl]
          exact ih h1 h2
        · exact absurd h2 (by simp [lexCmp])
        · exact absurd h1 (by simp [lexCmp])
        · exact absurd h1 (by simp [lexCmp])
        · exact absurd h1 (by simp [lexCmp])

theorem then_swap (x y : Ordering) : (x.swap).then (y.swap) = (x.then y).swap := by
  cases x <;> cases y <;> rfl

theorem then_ne_gt {x y : Ordering} :
    x.then y ≠ .gt ↔ x = .lt ∨ (x = .eq ∧ y ≠ .gt) := by
  cases x <;> cases y <;> decide

theorem then_of_ne_eq {x y : Ordering} (h : x ≠ .eq) : x.then y = x := by
  cases x
  · rfl
  · exact absurd rfl h
  · rfl

theorem tripleLex_ne_gt_swap {ta tb pa pb qa qb : List Char}
    (h : (lexCmp tb ta).then ((lexCmp pa pb).then (lexCmp qa qb)) = .gt) :
    (lexCmp ta tb).then ((lexCmp pb pa).then (lexCmp qb qa)) ≠ .gt := by
  rw [lexCmp_swap tb ta, lexCmp_swap pa pb, lexCmp_swap qa qb, then_swap, then_swap, h]
  decide

theorem tripleLex_ne_gt_trans {ta tb tc pa pb pc qa qb qc : List Char}
    (hab : (lexCmp tb ta).then ((lexCmp pa pb).then (lexCmp qa qb)) ≠ .gt)
    (hbc : (lexCmp tc tb).then ((lexCmp pb pc).then (lexCmp qb qc)) ≠ .gt) :
    (lexCmp tc ta).then ((lexCmp pa pc).then (lexCmp qa qc)) ≠ .gt := by
  rw [then_ne_gt] at hab hbc ⊢
  rcases hab with h1 | ⟨h1, h2⟩
  · rcases hbc with g1 | ⟨g1, g2⟩
    · exact Or.inl (lexCmp_lt_trans g1 h1)
    · obtain rfl : tc = tb := lexCmp_eq_iff.mp g1
      exact Or.inl h1
  · obtain rfl : tb = ta := lexCmp_eq_iff.mp h1
    rcases hbc with g1 | ⟨g1, g2⟩
    · exact Or.inl g1
    · obtain rfl : tc = tb := lexCmp_eq_iff.mp g1
      refine Or.inr ⟨lexCmp_eq_iff.mpr rfl, ?_⟩
      rw [then_ne_gt] at h2 g2 ⊢
      rcases h2 with h3 | ⟨h3, h4⟩
      · rcases g2 with g3 | ⟨g3, g4⟩
        · exact Or.inl (lexCmp_lt_trans h3 g3)
        · obtain rfl : pb = pc := lexCmp_eq_iff.mp g3
          exact Or.inl h3
      · obtain rfl : pa = pb := lexCmp_eq_iff.mp h3
        rcases g2 with g3 | ⟨g3, g4⟩
        · exact Or.inl g3
        · obtain rfl : pa = pc := lexCmp_eq_iff.mp g3
          refine Or.inr ⟨lexCmp_eq_iff.mpr rfl, ?_⟩
          intro hq
          rcases hqab : lexCmp qa qb with _ | _ | _ <;>
            rcases hqbc : lexCmp qb qc with _ | _ | _
          · rw [lexCmp_lt_trans hqab hqbc] at hq
            exact absurd hq (by decide)
          · obtain rfl : qb = qc := lexCmp_eq_iff.mp hqbc
            rw [hqab] at hq
            exact absurd hq (by decide)
          · exact g4 hqbc
          · obtain rfl : qa = qb := lexCmp_eq_iff.mp hqab
            rw [hqbc] at hq
            exact absurd hq (by decide)
          · obtain rfl : qa = qb := lexCmp_eq_iff.mp hqab
            obtain rfl : qa = qc := lexCmp_eq_iff.mp hqbc
            rw [lexCmp_eq_iff.mpr rfl] at hq
            exact absurd hq (by decide)
          · exact g4 hqbc
          · exact h4 hqab
          · exact h4 hqab
          · exact h4 hqab

theorem entryCmp_then (a b : ManifestEntry) :
    entryCmp a b = (lexCmp b.tag a.tag).then
      ((lexCmp a.platform b.platform).then
        (lexCmp a.architecture b.architecture)) := by
  unfold entryCmp
  by_cases h1 : a.tag = b.tag
  · rw [if_neg (by simp [h1]), lexCmp_eq_iff.mpr h1.symm]
    by_cases h2 : a.platform = b.platform
    · rw [if_neg (by simp [h2]), lexCmp_eq_iff.mpr h2]
      rfl
    · rw [if_pos h2]
      have h3 : lexCmp a.platform b.platform ≠ .eq :=
        fun hx => h2 (lexCmp_eq_iff.mp hx)
      rw [show ((Ordering.eq).then ((lexCmp a.platform b.platform).then
        (lexCmp a.architecture b.architecture))) = (lexCmp a.platform b.platform).then
        (lexCmp a.architecture b.architecture) from rfl]
      rw [then_of_ne_eq h3]
  · rw [if_pos h1]
    have h3 : lexCmp b.tag a.tag ≠ .eq :=
      fun hx => h1 (lexCmp_eq_iff.mp hx).symm
    rw [then_of_ne_eq h3]

theorem entryCmpZ_then (a b : ManifestEntryZ) :
    entryCmpZ a b = (lexCmp b.tag a.tag).then
      ((lexCmp a.platform b.platform).then
        (lexCmp a.architecture b.architecture)) := by
  unfold entryCmpZ
  by_cases h1 : a.tag = b.tag
  · rw [if_neg (by simp [h1]), lexCmp_eq_iff.mpr h1.symm]
    by_cases h2 : a.platform = b.platform
    · rw [if_neg (by simp [h2]), lexCmp_eq_iff.mpr h2]
      rfl
    · rw [if_pos h2]
      have h3 : lexCmp a.platform b.platform ≠ .eq :=
        fun hx => h2 (lexCmp_eq_iff.mp hx)
      rw [show ((Ordering.eq).then ((lexCmp a.platform b.platform).then
        (lexCmp a.architecture b.architecture))) = (lexCmp a.platform b.platform).then
        (lexCmp a.architecture b.architecture) from rfl]
      rw [then_of_ne_eq h3]
  · rw [if_pos h1]
    have h3 : lexCmp b.tag a.tag ≠ .eq :=
      fun hx => h1 (lexCmp_eq_iff.mp hx).symm
    rw [then_of_ne_eq h3]

theorem insertCmp_pairwise {cmp : α → α → Ordering}
    (hsw : ∀ a b, cmp a b = .gt → cmp b a ≠ .gt)
    (htr : ∀ a b c, cmp a b ≠ .gt → cmp b c ≠ .gt → cmp a c ≠ .gt)
    (x : α) (l : List α) (hl : l.Pairwise (fun a b => cmp a b ≠ .gt)) :
    (insertCmp cmp x l).Pairwise (fun a b => cmp a b ≠ .gt) := by
  induction l with
  | nil => simp [insertCmp]
  | cons y ys ih =>
    obtain ⟨hy, hys⟩ := List.pairwise_cons.mp hl
    unfold insertCmp
    by_cases h : cmp x y = .gt
    · rw [if_pos h]
      refine List.Pairwise.cons ?_ (ih hys)
      intro z hz
      have hz2 : z ∈ x :: ys := (insertCmp_perm cmp x ys).mem_iff.mp hz
      rcases List.mem_cons.mp hz2 with rfl | hz3
      · exact hsw z y h
      · exact hy z hz3
    · rw [if_neg h]
      refine List.Pairwise.cons ?_ (List.Pairwise.cons hy hys)
      intro z hz
      rcases List.mem_cons.mp hz with rfl | hz3
      · exact h
      · exact htr x y z h (hy z hz3)

theorem sortCmp_pairwise {cmp : α → α → Ordering}
    (hsw : ∀ a b, cmp a b = .gt → cmp b a ≠ .gt)
    (htr : ∀ a b c, cmp a b ≠ .gt → cmp b c ≠ .gt → cmp a c ≠ .gt)
    (l : List α) : (sortCmp cmp l).Pairwise (fun a b => cmp a b ≠ .gt) := by
  induction l with
  | nil => simp [sortCmp]
  | cons x xs ih => exact insertCmp_pairwise hsw htr x (sortCmp cmp xs) ih

theorem lexCmp_ne_gt_trans {a b c : List Char}
    (h1 : lexCmp a b ≠ .gt) (h2 : lexCmp b c ≠ .gt) : lexCmp a c ≠ .gt := by
  rcases hab : lexCmp a b with _ | _ | _
  · rcases hbc : lexCmp b c with _ | _ | _
    · rw [lexCmp_lt_trans hab hbc]; decide
    · obtain rfl : b = c := lexCmp_eq_iff.mp hbc
      rw [hab]; decide
    · exact absurd hbc h2
  · obtain rfl : a = b := lexCmp_eq_iff.mp hab
    exact h2
  · exact absurd hab h1

theorem entryCmp_gt_swap (a b : ManifestEntry) (h : entryCmp a b = .gt) :
    entryCmp b a ≠ .gt := by
  rw [entryCmp_then] at h ⊢
  exact tripleLex_ne_gt_swap h

theorem entryCmp_ne_gt_trans (a b c : ManifestEntry)
    (h1 : entryCmp a b ≠ .gt) (h2 : entryCmp b c ≠ .gt) :
    entryCmp a c ≠ .gt := by
  rw [entryCmp_then] at h1 h2 ⊢
  exact tripleLex_ne_gt_trans h1 h2

theorem entryCmpZ_gt_swap (a b : ManifestEntryZ) (h : entryCmpZ a b = .gt) :
    entryCmpZ b a ≠ .gt := by
  rw [entryCmpZ_then] at h ⊢
  exact tripleLex_ne_gt_swap h

theorem entryCmpZ_ne_gt_trans (a b c : ManifestEntryZ)
    (h1 : entryCmpZ a b ≠ .gt) (h2 : entryCmpZ b c ≠ .gt) :
    entryCmpZ a c ≠ .gt := by
  rw [entryCmpZ_then] at h1 h2 ⊢
  exact tripleLex_ne_gt_trans h1 h2

theorem relCmp_gt_swap (a b : Release)
    (h : lexCmp b.created_at a.created_at = .gt) :
    lexCmp a.created_at b.created_at ≠ .gt := by
  rw [lexCmp_swap b.created_at a.created_at, h]
  decide

theorem relCmp_ne_gt_trans (a b c : Release)
    (h1 : lexCmp b.created_at a.created_at ≠ .gt)
    (h2 : lexCmp c.created_at b.created_at ≠ .gt) :
    lexCmp c.created_at a.created_at ≠ .gt :=
  lexCmp_ne_gt_trans h2 h1

/-- C7: running the manifest rebuild twice against an unchanged upstream
release list is deterministic.  Both generations of `updateManifest` are
pure functions of the fetched release list, so equal inputs yield equal
outputs — for `src/unnamed/part_011` even byte-identical serialized
documents — and the fixed ordering holds: `src/unnamed/part_011` processes
releases in reverse-chronological (`created_at` descending) order, and
both generations sort the persisted entries by release tag descending,
then platform ascending, then architecture ascending. -/
theorem rebuild_deterministic (rs1 rs2 : List Release) (h : rs1 = rs2) :
    updateManifestPure rs1 = updateManifestPure rs2 ∧
    serializeManifestZ (updateManifest011 rs1).1 =
      serializeManifestZ (updateManifest011 rs2).1 ∧
    (sortReleases011 rs1).Pairwise
      (fun a b => lexCmp b.created_at a.created_at ≠ .gt) ∧
    ((updateManifest011 rs1).1).Pairwise (fun a b => entryCmpZ a b ≠ .gt) ∧
    ∀ m, updateManifestPure rs1 = .ok m →
      m.Pairwise (fun a b => entryCmp a b ≠ .gt) := by
  subst h
  refine ⟨rfl, rfl, ?_, ?_, ?_⟩
  · simp only [sortReleases011]
    exact sortCmp_pairwise relCmp_gt_swap relCmp_ne_gt_trans rs1
  · simp only [updateManifest011]
    exact sortCmp_pairwise entryCmpZ_gt_swap entryCmpZ_ne_gt_trans _
  · intro m hm
    unfold updateManifestPure at hm
    rcases hs : scanReleases rs1 with e | entries <;> rw [hs] at hm
    · exact absurd hm (by simp)
    · have hm' : (Except.ok (sortCmp entryCmp entries) :
        Except (List Char) (List ManifestEntry)) = .ok m := hm
      injection hm' with hm2
      subst hm2
      exact sortCmp_pairwise entryCmp_gt_swap entryCmp_ne_gt_trans entries

theorem rebuild_deterministic_witness :
    [cxRelNewer, cxRelOlder] = [cxRelNewer, cxRelOlder] ∧
    (updateManifestPure [cxRelNewer, cxRelOlder] =
        updateManifestPure [cxRelNewer, cxRelOlder] ∧
      serializeManifestZ (updateManifest011 [cxRelNewer, cxRelOlder]).1 =
        serializeManifestZ (updateManifest011 [cxRelNewer, cxRelOlder]).1 ∧
      (sortReleases011 [cxRelNewer, cxRelOlder]).Pairwise
        (fun a b => lexCmp b.created_at a.created_at ≠ .gt) ∧
      ((updateManifest011 [cxRelNewer, cxRelOlder]).1).Pairwise
        (fun a b => entryCmpZ a b ≠ .gt) ∧
      ∀ m, updateManifestPure [cxRelNewer, cxRelOlder] = .ok m →
        m.Pairwise (fun a b => entryCmp a b ≠ .gt)) :=
  ⟨rfl, rebuild_deterministic [cxRelNewer, cxRelOlder] [cxRelNewer, cxRelOlder] rfl⟩

end SetupMLIR

